import Mathlib

/-!
Verification of the samplesheet reconciliation and configuration derivation
core of the scilifelab laboratory-operations scripts
(`scripts/bcbb_helpers/run_bcbb_pipeline.py` and
`scilifelab/report/delivery_notes.py`).

The Python code manipulates dictionaries whose values are strings, integers
and lists of strings.  We embed those values as `PVal`, dictionaries as
insertion-ordered association lists (`Dict`), and model each source function
as a Lean function over this representation.  Mutable heap state (the
Configuration Override Engine mutates lane and barcode dictionaries in
place) is modelled by explicit stores indexed by natural-number addresses.
-/

/-- A Python scalar/list value as it occurs in the samplesheet-derived
configuration structures: strings, integers, and lists of strings
(file-name lists). -/
inductive PVal where
  | str (s : String)
  | int (n : Int)
  | strList (xs : List String)
deriving DecidableEq, Repr

/-- A Python dictionary with `String` keys, in insertion order
(CPython dicts preserve insertion order; `csv.DictReader` rows and the
yaml-loaded configuration entries are such dicts). -/
abbrev Dict := List (String × PVal)

/-- `d.get(k)` returning `None` as `none`: the value of the first binding
of `k`. -/
def dget : Dict → String → Option PVal
  | [], _ => none
  | (k', v) :: t, k => if k' = k then some v else dget t k

/-- `d.get(k, default)`. -/
def dgetD (d : Dict) (k : String) (v : PVal) : PVal :=
  (dget d k).getD v

/-- `d[k] = v`: replace the first binding of `k` in place (keeping its
position), or append a new binding at the end, exactly as a CPython dict
assignment behaves. -/
def dset : Dict → String → PVal → Dict
  | [], k, v => [(k, v)]
  | (k', v') :: t, k, v => if k' = k then (k, v) :: t else (k', v') :: dset t k v

/-! ## Configuration Derivation Engine (C1)

`bcbb_configuration_from_samplesheet` in `run_bcbb_pipeline.py` converts a
csv samplesheet to a yaml structure via the external `bcbio` library
(`bcbio.solexa.samplesheet.csv2yaml`, a third-party dependency outside this
repository) and then rewrites the `analysis` field of every lane and of
every entry of a lane's `multiplex` list, depending on the entry's
`genome_build`.  We model the yaml-loaded configuration as an arbitrary
list of lane objects, so the theorems cover every possible output of the
external conversion. -/

/-- A lane entry of the yaml-loaded configuration: its scalar keys, plus
the optional `multiplex` list of barcode dictionaries. -/
structure PLane where
  entries : Dict
  multiplex : Option (List Dict)
deriving DecidableEq, Repr

/-- The analysis variant the source assigns from a dictionary's
`genome_build`: `lane.get('genome_build','') == 'hg19'` selects
`Align_standard_seqcap`, anything else `Align_standard`. -/
def analysisFor (d : Dict) : PVal :=
  if dgetD d "genome_build" (PVal.str "") = PVal.str "hg19" then
    PVal.str "Align_standard_seqcap"
  else
    PVal.str "Align_standard"

/-- The analysis-replacement loop of `bcbb_configuration_from_samplesheet`:
for each lane set `lane['analysis']`, and for each `plex` in
`lane.get('multiplex',[])` set `plex['analysis']`, by the `genome_build`
rule. -/
def bcbb_configuration_from_samplesheet (config : List PLane) : List PLane :=
  config.map fun lane =>
    { entries := dset lane.entries "analysis" (analysisFor lane.entries),
      multiplex := lane.multiplex.map fun plexes =>
        plexes.map fun plex => dset plex "analysis" (analysisFor plex) }

/-- The genome-build value a dictionary presents to the rule,
`d.get('genome_build','')`. -/
def genomeBuildOf (d : Dict) : PVal := dgetD d "genome_build" (PVal.str "")

/-! ## Per-Sample Filename Decoder (C6, C7, C10)

`_parse_sample_filename` matches the filename against the Python regex
`^(.+?)_(NoIndex|Undetermined|[ACGT\-]+)_L(\d+)_R(\d)_(\d+)\.fastq.*$`
(`re.match`), converts every captured group with `int(...)` falling back
to the raw string, checks that five groups were captured, and returns the
field dictionary; otherwise it raises `ValueError('Invalid file name
format')`.

We embed the specific regex as a specialized matcher with Python's
backtracking semantics: the lazy `(.+?)_` tries split points left to
right; the alternation tries `NoIndex`, `Undetermined`, then `[ACGT-]+`
in order; each greedy `\d+` (and the greedy `[ACGT-]+`) is immediately
followed by a literal that is outside its character class, so taking the
maximal run is equivalent to greedy matching with backtracking.  `.`
never matches a newline, and the final `.*$` accepts any newline-free
tail, optionally followed by one terminating newline (Python `$`).
Digits are the ASCII digits (the inputs are ASCII filenames). -/

/-- A character of the index class `[ACGT\-]`. -/
def isIdxChar (c : Char) : Bool :=
  c = 'A' || c = 'C' || c = 'G' || c = 'T' || c = '-'

/-- The tail `.*$` of the pattern: any newline-free remainder, optionally
ending in a single final newline. -/
def tailOk (l : List Char) : Bool :=
  l.all (· ≠ '\n') ||
    (match l.getLast? with
     | some c => c = '\n' && l.dropLast.all (· ≠ '\n')
     | none => false)

/-- Matches the suffix `_L(\d+)_R(\d)_(\d+)\.fastq.*$` of the pattern,
returning the lane digits, read digit and chunk digits. -/
def matchTail (l : List Char) : Option (List Char × Char × List Char) :=
  match l with
  | '_' :: 'L' :: r1 =>
    if (r1.takeWhile Char.isDigit).isEmpty then none else
    match r1.dropWhile Char.isDigit with
    | '_' :: 'R' :: d :: '_' :: r3 =>
      if d.isDigit then
        if (r3.takeWhile Char.isDigit).isEmpty then none else
        match r3.dropWhile Char.isDigit with
        | '.' :: 'f' :: 'a' :: 's' :: 't' :: 'q' :: rest =>
          if tailOk rest then
            some (r1.takeWhile Char.isDigit, d, r3.takeWhile Char.isDigit)
          else none
        | _ => none
      else none
    | _ => none
  | _ => none

/-- Matches `(NoIndex|Undetermined|[ACGT\-]+)` followed by the tail,
trying the alternatives in the regex's order. -/
def matchIndexAndTail (l : List Char) : Option (String × List Char × Char × List Char) :=
  (if l.take 7 = "NoIndex".data then
      (matchTail (l.drop 7)).map (fun t => ("NoIndex", t))
    else none).orElse fun _ =>
  (if l.take 12 = "Undetermined".data then
      (matchTail (l.drop 12)).map (fun t => ("Undetermined", t))
    else none).orElse fun _ =>
  (if (l.takeWhile isIdxChar).isEmpty then none
   else (matchTail (l.drop (l.takeWhile isIdxChar).length)).map
     (fun t => ((l.takeWhile isIdxChar).asString, t)))

/-- The lazy `^(.+?)_` search: scan split points left to right, `acc`
holding the reversed candidate first group.  The first group's characters
are matched by `.`, so the scan stops at a newline. -/
def scanFrom : List Char → List Char → Option (String × String × List Char × Char × List Char)
  | _, [] => none
  | acc, c :: rest =>
    if c = '\n' then none
    else if c = '_' && !acc.isEmpty then
      match matchIndexAndTail rest with
      | some (idx, t) => some (acc.reverse.asString, idx, t)
      | none => scanFrom (c :: acc) rest
    else scanFrom (c :: acc) rest

/-- `re.match(pattern, fname)`, returning `m.groups()` as a list of five
group strings. -/
def matchSampleFilename (fname : String) : Option (List String) :=
  (scanFrom [] fname.data).map fun (g1, idx, lane, d, chunk) =>
    [g1, idx, lane.asString, String.mk [d], chunk.asString]

/-- Numeric value of a run of ASCII digits. -/
def digitsVal (l : List Char) : Nat :=
  l.foldl (fun n c => n * 10 + (c.toNat - 48)) 0

/-- The whitespace stripping `int(...)` performs on its string argument. -/
def pyStrip (s : String) : List Char :=
  ((s.data.dropWhile Char.isWhitespace).reverse.dropWhile Char.isWhitespace).reverse

/-- Python `int(s)` on a string, as exercised here: optional surrounding
whitespace, an optional sign, then one or more ASCII digits; `none` models
the `ValueError` swallowed by the `try`/`except` in the source. -/
def pyInt (s : String) : Option Int :=
  match pyStrip s with
  | '-' :: rest =>
    if rest ≠ [] ∧ rest.all Char.isDigit then some (-(Int.ofNat (digitsVal rest)))
    else none
  | '+' :: rest =>
    if rest ≠ [] ∧ rest.all Char.isDigit then some (Int.ofNat (digitsVal rest))
    else none
  | l =>
    if l ≠ [] ∧ l.all Char.isDigit then some (Int.ofNat (digitsVal l)) else none

/-- `int(g)` with fallback to the group string (`try: p = int(g) except: p = g`). -/
def groupVal (g : String) : PVal :=
  match pyInt g with
  | some n => PVal.int n
  | none => PVal.str g

/-- The decoded field dictionary `dict(zip(fields, pcs))` with
`fields = ['SampleID','Index','Lane','Read','Chunk']`. -/
structure FilenameFields where
  sampleID : PVal
  index : PVal
  lane : PVal
  read : PVal
  chunk : PVal
deriving DecidableEq, Repr

/-- `_parse_sample_filename`: match the regex, convert each captured group,
check that exactly five pieces were captured, and build the field
dictionary; otherwise `ValueError('Invalid file name format')`. -/
def _parse_sample_filename (fname : String) : Except String FilenameFields :=
  let pcs := ((matchSampleFilename fname).getD []).map groupVal
  match pcs with
  | [a, b, c, d, e] => Except.ok ⟨a, b, c, d, e⟩
  | _ => Except.error "Invalid file name format"

/-- The Python exception kinds raised by the modelled fragments. -/
inductive PyErr where
  | nameError (id : String)
  | valueError (msg : String)
  | keyError
  | indexError
deriving DecidableEq, Repr

/-! ## `_sample_files_custom_config` (C9)

The function first decodes `sample_files[0]` with `_parse_sample_filename`
(an `IndexError` on an empty list, a `ValueError` on an unparsable name),
builds `config = {'lane': fields['Lane']}`, and then evaluates
`pcs['Index']`.  The name `pcs` is not defined anywhere in the module (it
is only a local variable of `_parse_sample_filename`), so this reference
raises a `NameError`; the remainder of the body (building the multiplex
entry, attaching `files`, returning `config`) is unreachable. -/
def _sample_files_custom_config (sample_files : List String) : Except PyErr Dict :=
  match sample_files with
  | [] => Except.error PyErr.indexError
  | f :: _ =>
    match _parse_sample_filename f with
    | Except.error m => Except.error (PyErr.valueError m)
    | Except.ok _fields => Except.error (PyErr.nameError "pcs")

/-! ## Samplesheet Merger (C3, C4)

`_merge_samplesheets` reads every input sheet with `csv.DictReader`
(collecting all data rows and overwriting the `header` variable with each
sheet's field names, so the *last* sheet's header survives), then writes
with `csv.DictWriter(outh, header)` the header and
`sorted(data, key=lambda d: (d['Lane'], d['Index']))`.

We model a parsed sheet as its header plus its rows (each row an
association list whose keys are that sheet's header, as `DictReader`
yields).  Failure modes modelled: the sort key raises `KeyError` when a
row lacks `Lane` or `Index` (CPython's `sorted` evaluates every key before
comparing), and `DictWriter.writerows` raises `ValueError` when a row has
a field outside the writer's header; fields missing from a row are written
as the empty string (`restval`).  Python's `sorted` is a stable sort by
the `(Lane, Index)` string pair, which we model with a stable insertion
sort. -/

/-- A samplesheet row: ordered mapping from column name to string value. -/
abbrev Row := List (String × String)

/-- Row lookup (`d[k]` / `d.get(k)`). -/
def rget : Row → String → Option String
  | [], _ => none
  | (k', v) :: t, k => if k' = k then some v else rget t k

/-- Row lookup with default. -/
def rgetD (r : Row) (k : String) (v : String) : String :=
  (rget r k).getD v

/-- The column set of a row (`set(rowdict)` keeps the keys). -/
def rkeys (r : Row) : List String := r.map Prod.fst

/-- A parsed samplesheet: header plus data rows. -/
structure Sheet where
  header : List String
  rows : List Row
deriving DecidableEq, Repr

/-- The sort key `(d['Lane'], d['Index'])` (total after the `KeyError`
check; absent keys default to the empty string). -/
def rowKey (r : Row) : String × String := (rgetD r "Lane" "", rgetD r "Index" "")

/-- Python's tuple comparison on the two key strings: lexicographic,
comparing the strings by code points, never as integers. -/
def keyLe (a b : String × String) : Bool :=
  decide (a.1 < b.1) || (decide (a.1 = b.1) && decide (a.2 ≤ b.2))

/-- Row comparison by sort key. -/
def rowLe (a b : Row) : Bool := keyLe (rowKey a) (rowKey b)

/-- Stable insertion of `x` (an earlier element) into an already sorted
list of later elements: `x` goes before the first element it compares
less-or-equal to, so equal keys keep their original order, as Python's
stable `sorted` does. -/
def sInsert (le : α → α → Bool) (x : α) : List α → List α
  | [] => [x]
  | y :: ys => if le x y then x :: y :: ys else y :: sInsert le x ys

/-- Stable insertion sort modelling Python's stable `sorted`. -/
def sSort (le : α → α → Bool) : List α → List α
  | [] => []
  | x :: xs => sInsert le x (sSort le xs)

/-- The header the writer uses: the loop re-assigns `header` for every
sheet, so the last sheet's header survives (`[]` if there are no sheets). -/
def lastHeader (sheets : List Sheet) : List String :=
  sheets.foldl (fun _ s => s.header) []

/-- The concatenated data rows, in input order. -/
def concatRows (sheets : List Sheet) : List Row :=
  sheets.foldl (fun acc s => acc ++ s.rows) []

/-- Whether the sort key can be computed for a row (`d['Lane']`,
`d['Index']` raise `KeyError` otherwise). -/
def hasSortKeys (r : Row) : Bool :=
  (rget r "Lane").isSome && (rget r "Index").isSome

/-- The row `DictWriter` emits: one field per header column, with `restval`
(written as the empty string) for columns the row lacks. -/
def projRow (header : List String) (r : Row) : Row :=
  header.map fun k => (k, rgetD r k "")

/-- `_merge_samplesheets`: concatenate all rows, sort by the raw-string
`(Lane, Index)` key, and write them under the last sheet's header.  There
is no header-consistency check of any kind; the only failures are the
`KeyError` from the sort key and `DictWriter`'s `ValueError` when a row
has a field outside the writer's header. -/
def _merge_samplesheets (sheets : List Sheet) : Except PyErr Sheet :=
  if (concatRows sheets).all hasSortKeys then
    if (sSort rowLe (concatRows sheets)).all
        (fun r => (rkeys r).all (lastHeader sheets).contains) then
      Except.ok ⟨lastHeader sheets,
        (sSort rowLe (concatRows sheets)).map (projRow (lastHeader sheets))⟩
    else
      Except.error (PyErr.valueError "dict contains fields not in fieldnames")
  else
    Except.error PyErr.keyError

/-! ## Configuration Override Engine (C2, C5)

`override_with_custom_config` deep-copies the samplesheet-derived
configuration (`new_config = copy.deepcopy(org_config)`) and then mutates
the copy in place: for each lane dict it finds the first custom entry with
the same `lane` value (`item['lane'] != custom_item.get('lane','')`),
copies every custom key except `multiplex` onto the lane dict, and for
each barcode dict in the lane's `multiplex` list that has a `sequence`
key, copies all keys of the first custom barcode entry with the same
`sequence`.

Because the claims are about in-place mutation versus the caller's
structure, we model the Python object graph explicitly: lane dicts and
barcode dicts are objects in two address-indexed stores (they are distinct
objects, so the partition is faithful), a configuration is a list of lane
addresses, and `deepcopy` allocates fresh addresses at the end of the
stores.  The custom configuration is read-only throughout, so it is
modelled by value; its `multiplex` key is kept apart from its other keys
(`custom_item.get('multiplex',[])` reads it, the key-copying loop skips
it). -/

/-- A lane dict object: its scalar bindings plus the optional `multiplex`
binding holding references to barcode dict objects. -/
structure LaneObj where
  entries : Dict
  multiplex : Option (List Nat)
deriving DecidableEq, Repr

/-- The mutable object stores: lane dicts and barcode (sample) dicts. -/
structure Heap where
  lanes : List LaneObj
  samples : List Dict
deriving DecidableEq, Repr

/-- Dereference a lane address. -/
def laneAt (h : Heap) (a : Nat) : LaneObj := (h.lanes[a]?).getD ⟨[], none⟩

/-- Dereference a barcode-dict address. -/
def sampleAt (h : Heap) (a : Nat) : Dict := (h.samples[a]?).getD []

/-- In-place update of a lane object. -/
def setLane (h : Heap) (a : Nat) (lo : LaneObj) : Heap :=
  { h with lanes := h.lanes.set a lo }

/-- In-place update of a barcode-dict object. -/
def setSample (h : Heap) (a : Nat) (d : Dict) : Heap :=
  { h with samples := h.samples.set a d }

/-- Allocate a fresh barcode-dict object. -/
def allocSample (h : Heap) (d : Dict) : Heap × Nat :=
  ({ h with samples := h.samples ++ [d] }, h.samples.length)

/-- Allocate a fresh lane object. -/
def allocLane (h : Heap) (lo : LaneObj) : Heap × Nat :=
  ({ h with lanes := h.lanes ++ [lo] }, h.lanes.length)

/-- `copy.deepcopy` of a `multiplex` list: fresh copies of the barcode
dicts. -/
def copySamples (h : Heap) : List Nat → Heap × List Nat
  | [] => (h, [])
  | a :: rest =>
    ((copySamples (allocSample h (sampleAt h a)).1 rest).1,
      (allocSample h (sampleAt h a)).2 ::
        (copySamples (allocSample h (sampleAt h a)).1 rest).2)

/-- `copy.deepcopy` of one lane dict (copying its barcode dicts first). -/
def copyLane (h : Heap) (a : Nat) : Heap × Nat :=
  match (laneAt h a).multiplex with
  | none => allocLane h ⟨(laneAt h a).entries, none⟩
  | some mas =>
    allocLane (copySamples h mas).1 ⟨(laneAt h a).entries, some (copySamples h mas).2⟩

/-- `copy.deepcopy(org_config)`: fresh lane objects referencing fresh
barcode objects. -/
def deepcopyConfig (h : Heap) : List Nat → Heap × List Nat
  | [] => (h, [])
  | a :: rest =>
    ((deepcopyConfig (copyLane h a).1 rest).1,
      (copyLane h a).2 :: (deepcopyConfig (copyLane h a).1 rest).2)

/-- A custom (override) configuration entry: its scalar keys and its
`multiplex` list of barcode dicts (`get('multiplex',[])` turns an absent
key into the empty list). -/
structure CustomItem where
  entries : Dict
  multiplex : List Dict
deriving DecidableEq, Repr

/-- The inner search of the override loop: the first custom entry whose
`lane` (defaulted to `''`) equals `item['lane']`; `KeyError` when the lane
dict has no `lane` binding (only raised when there is a custom entry to
compare against). -/
def findMatch (h : Heap) (a : Nat) : List CustomItem → Except PyErr (Option CustomItem)
  | [] => Except.ok none
  | ci :: rest =>
    match dget (laneAt h a).entries "lane" with
    | none => Except.error PyErr.keyError
    | some lv =>
      if lv = dgetD ci.entries "lane" (PVal.str "") then Except.ok (some ci)
      else findMatch h a rest

/-- `for key, val in src.items(): d[key] = val`. -/
def applyEntries (d : Dict) (src : Dict) : Dict :=
  src.foldl (fun d kv => dset d kv.1 kv.2) d

/-- The first custom barcode entry whose `sequence` (defaulted to `''`)
equals the given value. -/
def findCustomSample (sq : PVal) : List Dict → Option Dict
  | [] => none
  | cs :: rest =>
    if sq = dgetD cs "sequence" (PVal.str "") then some cs
    else findCustomSample sq rest

/-- One iteration of the barcode loop: a barcode dict with a `sequence`
binding receives all keys of the first matching custom barcode entry (in
place); others are left alone. -/
def sampleStep (h : Heap) (ci : CustomItem) (sa : Nat) : Heap :=
  match dget (sampleAt h sa) "sequence" with
  | none => h
  | some sq =>
    match findCustomSample sq ci.multiplex with
    | none => h
    | some cs => setSample h sa (applyEntries (sampleAt h sa) cs)

/-- The barcode loop over the lane's `multiplex` list. -/
def processSamples (h : Heap) (ci : CustomItem) : List Nat → Heap
  | [] => h
  | sa :: rest => processSamples (sampleStep h ci sa) ci rest

/-- After the key-copying step, run the barcode loop over the lane's
(re-read) `multiplex` list. -/
def processMultiplex (h1 : Heap) (a : Nat) (ci : CustomItem) : Heap :=
  match (laneAt h1 a).multiplex with
  | none => h1
  | some mas => processSamples h1 ci mas

/-- The key-copying step of a matched lane: every custom key except
`multiplex` is written onto the lane dict in place (the `multiplex`
binding is left as it was). -/
def laneWrite (h : Heap) (a : Nat) (ci : CustomItem) : Heap :=
  setLane h a ⟨applyEntries (laneAt h a).entries ci.entries, (laneAt h a).multiplex⟩

/-- One iteration of the outer loop for the lane object at `a`: find the
matching custom entry, copy its non-`multiplex` keys onto the lane dict in
place, then run the barcode loop over the lane's `multiplex` list. -/
def processItem (h : Heap) (a : Nat) (custom : List CustomItem) : Heap × Option PyErr :=
  match findMatch h a custom with
  | Except.error e => (h, some e)
  | Except.ok none => (h, none)
  | Except.ok (some ci) => (processMultiplex (laneWrite h a ci) a ci, none)

/-- The outer loop over the copied lane objects; a `KeyError` aborts the
loop (the heap keeps the mutations already applied). -/
def overrideLoop (h : Heap) : List Nat → List CustomItem → Heap × Option PyErr
  | [], _ => (h, none)
  | a :: rest, custom =>
    match (processItem h a custom).2 with
    | some e => ((processItem h a custom).1, some e)
    | none => overrideLoop (processItem h a custom).1 rest custom

/-- `override_with_custom_config(org_config, custom_config)`: deep-copy
the original configuration, mutate the copy, and return it (or propagate
the `KeyError`).  The returned heap is the final object store. -/
def override_with_custom_config (h : Heap) (org : List Nat)
    (custom : List CustomItem) : Heap × Except PyErr (List Nat) :=
  match (overrideLoop (deepcopyConfig h org).1 (deepcopyConfig h org).2 custom).2 with
  | some e =>
    ((overrideLoop (deepcopyConfig h org).1 (deepcopyConfig h org).2 custom).1,
      Except.error e)
  | none =>
    ((overrideLoop (deepcopyConfig h org).1 (deepcopyConfig h org).2 custom).1,
      Except.ok (deepcopyConfig h org).2)

/-- The caller-visible value of a lane reference: its dict and the dicts
its `multiplex` list references. -/
def readLane (h : Heap) (a : Nat) : PLane :=
  ⟨(laneAt h a).entries, (laneAt h a).multiplex.map fun mas => mas.map (sampleAt h)⟩

/-- The caller-visible value of a configuration. -/
def readConfig (h : Heap) (cfg : List Nat) : List PLane := cfg.map (readLane h)

/-- All references of a configuration point into the stores. -/
def ValidConfig (h : Heap) (cfg : List Nat) : Prop :=
  ∀ a ∈ cfg, a < h.lanes.length ∧
    ∀ mas, (laneAt h a).multiplex = some mas → ∀ sa ∈ mas, sa < h.samples.length

/-- The second heap extends the first: objects were only appended. -/
def HeapExtends (h h2 : Heap) : Prop :=
  (∃ ls, h2.lanes = h.lanes ++ ls) ∧ ∃ ss, h2.samples = h.samples ++ ss

/-- Heaps agreeing on all objects below the given store sizes (the
original objects). -/
def SameBelow (nl ns : Nat) (h h2 : Heap) : Prop :=
  (∀ b, b < nl → h2.lanes[b]? = h.lanes[b]?) ∧
  ∀ b, b < ns → h2.samples[b]? = h.samples[b]?

/-! ## Directory/Run Reconciler (C8)

`sample_status_note` in `scilifelab/report/delivery_notes.py` groups the
sample run records by the key `"{date}_{flowcell}_{lane}_{sequence}"` into
an insertion-ordered dict of lists, leaves groups of size one alone, and
for each larger group repeatedly asks a yes/no question per record
(`query_yes_no`), replacing the group by the kept records, until at most
one record remains; it then rebuilds the run list as `[s[0] for s in
sample_dict.values()]` — the *first* element of each surviving group,
which raises `IndexError` when the operator dropped every record of some
group.

The interactive prompt is modelled as a decision oracle indexed by group
key, round number and position in the current group; the unbounded `while`
loop is modelled with fuel (`none` = the loop has not converged within the
fuel). -/

/-- A sample run record: the identity fields used by the duplicate check
plus its remaining metadata. -/
structure RunRecord where
  date : String
  flowcell : String
  lane : String
  sequence : String
  meta : Dict
deriving DecidableEq, Repr

/-- The grouping key `"{}_{}_{}_{}".format(date, flowcell, lane, sequence)`. -/
def runKey (r : RunRecord) : String :=
  r.date ++ "_" ++ r.flowcell ++ "_" ++ r.lane ++ "_" ++ r.sequence

/-- Append a record to its group (CPython dicts keep insertion order; a new
key goes to the end). -/
def addToGroups (k : String) (r : RunRecord) :
    List (String × List RunRecord) → List (String × List RunRecord)
  | [] => [(k, [r])]
  | (k2, rs) :: rest =>
    if k2 = k then (k2, rs ++ [r]) :: rest else (k2, rs) :: addToGroups k r rest

/-- The grouping loop over `sample_run_list`. -/
def groupByKey (runs : List RunRecord) : List (String × List RunRecord) :=
  runs.foldl (fun gs r => addToGroups (runKey r) r gs) []

/-- One prompting round: each record of the current group is kept exactly
when the oracle answers yes at its position. -/
def keepRoundAux (ans : Nat → Bool) (i : Nat) : List RunRecord → List RunRecord
  | [] => []
  | r :: rest =>
    if ans i then r :: keepRoundAux ans (i + 1) rest else keepRoundAux ans (i + 1) rest

/-- One prompting round, starting at position 0. -/
def keepRound (ans : Nat → Bool) (samples : List RunRecord) : List RunRecord :=
  keepRoundAux ans 0 samples

/-- The `while len(samples) > 1` loop, with fuel bounding the number of
rounds (`none` models the interactive loop never converging). -/
def resolveGroup (dec : Nat → Nat → Bool) (fuel round : Nat)
    (samples : List RunRecord) : Option (List RunRecord) :=
  match fuel with
  | 0 => if samples.length ≤ 1 then some samples else none
  | fuel2 + 1 =>
    if samples.length ≤ 1 then some samples
    else resolveGroup dec fuel2 (round + 1) (keepRound (dec round) samples)

/-- The reconciliation pass over all groups (every `while` loop runs before
the final rebuild). -/
def resolveAll (dec : String → Nat → Nat → Bool) (fuel : Nat) :
    List (String × List RunRecord) → Option (List (String × List RunRecord))
  | [] => some []
  | (k, rs) :: rest =>
    match resolveGroup (dec k) fuel 0 rs with
    | none => none
    | some final =>
      match resolveAll dec fuel rest with
      | none => none
      | some rest2 => some ((k, final) :: rest2)

/-- The reconciler's error outcomes: the decision loop never converged, or
`[s[0] for s in sample_dict.values()]` hit an empty group (`IndexError`). -/
inductive ReconcileErr where
  | nonTermination
  | indexError
deriving DecidableEq, Repr

/-- `[s[0] for s in sample_dict.values()]`. -/
def firstEach : List (String × List RunRecord) → Except ReconcileErr (List RunRecord)
  | [] => Except.ok []
  | (_, rs) :: rest =>
    match rs with
    | [] => Except.error ReconcileErr.indexError
    | r :: _ =>
      match firstEach rest with
      | Except.error e => Except.error e
      | Except.ok l => Except.ok (r :: l)

/-- The duplicate-reconciliation block of `sample_status_note`: group,
resolve each duplicate group interactively, rebuild from the groups'
first elements. -/
def reconcileRuns (dec : String → Nat → Nat → Bool) (fuel : Nat)
    (runs : List RunRecord) : Except ReconcileErr (List RunRecord) :=
  match resolveAll dec fuel (groupByKey runs) with
  | none => Except.error ReconcileErr.nonTermination
  | some gs => firstEach gs

theorem dget_dset_self (d : Dict) (k : String) (v : PVal) :
    dget (dset d k v) k = some v := by
  induction d with
  | nil => simp [dset, dget]
  | cons hd t ih =>
    obtain ⟨k', v'⟩ := hd
    by_cases h : k' = k <;> simp [dset, dget, h, ih]

theorem dget_dset_ne (d : Dict) (k k' : String) (v : PVal) (hk : k ≠ k') :
    dget (dset d k v) k' = dget d k' := by
  induction d with
  | nil => simp [dset, dget, hk]
  | cons hd t ih =>
    obtain ⟨k0, v0⟩ := hd
    by_cases h : k0 = k
    · subst h
      simp [dset, dget, hk]
    · simp only [dset, if_neg h]
      by_cases h' : k0 = k' <;> simp [dget, h', ih]

theorem dget_analysis_set (d : Dict) :
    dget (dset d "analysis" (analysisFor d)) "analysis" = some (analysisFor d) :=
  dget_dset_self d "analysis" (analysisFor d)

theorem genomeBuild_analysis_set (d : Dict) :
    genomeBuildOf (dset d "analysis" (analysisFor d)) = genomeBuildOf d := by
  unfold genomeBuildOf dgetD
  rw [dget_dset_ne]
  decide

/-- C1: every lane entry and every barcode entry produced by the
configuration derivation has `analysis = Align_standard_seqcap` exactly
when its `genome_build` (read with default `''`) is the literal `hg19`,
and `analysis = Align_standard` for every other value, including an absent
`genome_build` key. -/
theorem claim_c1_analysis_assignment (config : List PLane) (lane : PLane)
    (hlane : lane ∈ bcbb_configuration_from_samplesheet config) :
    ((genomeBuildOf lane.entries = PVal.str "hg19" →
        dget lane.entries "analysis" = some (PVal.str "Align_standard_seqcap")) ∧
      (genomeBuildOf lane.entries ≠ PVal.str "hg19" →
        dget lane.entries "analysis" = some (PVal.str "Align_standard"))) ∧
    ∀ plexes, lane.multiplex = some plexes → ∀ plex ∈ plexes,
      (genomeBuildOf plex = PVal.str "hg19" →
        dget plex "analysis" = some (PVal.str "Align_standard_seqcap")) ∧
      (genomeBuildOf plex ≠ PVal.str "hg19" →
        dget plex "analysis" = some (PVal.str "Align_standard")) := by
  unfold bcbb_configuration_from_samplesheet at hlane
  rw [List.mem_map] at hlane
  obtain ⟨src, -, rfl⟩ := hlane
  constructor
  · rw [genomeBuild_analysis_set, dget_analysis_set]
    unfold analysisFor genomeBuildOf
    by_cases h : dgetD src.entries "genome_build" (PVal.str "") = PVal.str "hg19" <;>
      simp [h]
  · intro plexes hpl plex hplex
    cases hm : src.multiplex with
    | none => rw [hm] at hpl; exact absurd hpl (by simp)
    | some ps =>
      rw [hm] at hpl
      have hpl' : (ps.map fun plex => dset plex "analysis" (analysisFor plex)) = plexes := by
        simpa using hpl
      subst hpl'
      rw [List.mem_map] at hplex
      obtain ⟨p, -, rfl⟩ := hplex
      rw [genomeBuild_analysis_set, dget_analysis_set]
      unfold analysisFor genomeBuildOf
      by_cases h : dgetD p "genome_build" (PVal.str "") = PVal.str "hg19" <;>
        simp [h]

/-- Witness for C1 at a concrete two-lane configuration (one hg19 lane with
a multiplex list, one lane with another genome build). -/
theorem claim_c1_analysis_assignment_witness :
    (PLane.mk
        [("lane", PVal.int 1), ("genome_build", PVal.str "hg19"),
         ("analysis", PVal.str "Align_standard_seqcap")]
        (some [[("sequence", PVal.str "ACGT"), ("genome_build", PVal.str "hg19"),
                ("analysis", PVal.str "Align_standard_seqcap")]]) ∈
      bcbb_configuration_from_samplesheet
        [⟨[("lane", PVal.int 1), ("genome_build", PVal.str "hg19")],
          some [[("sequence", PVal.str "ACGT"), ("genome_build", PVal.str "hg19")]]⟩,
         ⟨[("lane", PVal.int 2), ("genome_build", PVal.str "mm9")], none⟩]) ∧
    dget [("lane", PVal.int 1), ("genome_build", PVal.str "hg19"),
          ("analysis", PVal.str "Align_standard_seqcap")] "analysis" =
      some (PVal.str "Align_standard_seqcap") := by
  refine ⟨by decide, ?_⟩
  exact (claim_c1_analysis_assignment
    [⟨[("lane", PVal.int 1), ("genome_build", PVal.str "hg19")],
      some [[("sequence", PVal.str "ACGT"), ("genome_build", PVal.str "hg19")]]⟩,
     ⟨[("lane", PVal.int 2), ("genome_build", PVal.str "mm9")], none⟩]
    (PLane.mk
      [("lane", PVal.int 1), ("genome_build", PVal.str "hg19"),
       ("analysis", PVal.str "Align_standard_seqcap")]
      (some [[("sequence", PVal.str "ACGT"), ("genome_build", PVal.str "hg19"),
              ("analysis", PVal.str "Align_standard_seqcap")]]))
    (by decide)).1.1 (by decide)

/-- C9: on every non-empty file list, `_sample_files_custom_config` raises
(for a decodable first filename, the `NameError` on the undefined name
`pcs`) and never returns a configuration. -/
theorem claim_c9_sample_files_config_unreachable (sample_files : List String)
    (h : sample_files ≠ []) :
    (∀ cfg, _sample_files_custom_config sample_files ≠ Except.ok cfg) ∧
    (∀ f rest ff, sample_files = f :: rest → _parse_sample_filename f = Except.ok ff →
      _sample_files_custom_config sample_files = Except.error (PyErr.nameError "pcs")) := by
  constructor
  · intro cfg hcfg
    match sample_files, h with
    | f :: rest, _ =>
      simp only [_sample_files_custom_config] at hcfg
      cases hp : _parse_sample_filename f <;> simp [hp] at hcfg
  · rintro f rest ff rfl hok
    simp [_sample_files_custom_config, hok]

/-- Witness for C9 at a singleton list holding a well-formed filename: the
call ends in the `NameError` on `pcs`. -/
theorem claim_c9_sample_files_config_unreachable_witness :
    _sample_files_custom_config ["SampleA_ACGTAC_L001_R1_001.fastq.gz"] =
      Except.error (PyErr.nameError "pcs") :=
  (claim_c9_sample_files_config_unreachable
      ["SampleA_ACGTAC_L001_R1_001.fastq.gz"] (by decide)).2
    "SampleA_ACGTAC_L001_R1_001.fastq.gz" []
    ⟨PVal.str "SampleA", PVal.str "ACGTAC", PVal.int 1, PVal.int 1, PVal.int 1⟩
    (by rfl) (by rfl)

theorem all_takeWhile (p : Char → Bool) (l : List Char) :
    (l.takeWhile p).all p = true := by
  induction l with
  | nil => rfl
  | cons c t ih => by_cases h : p c <;> simp [List.takeWhile_cons, h, ih]

/-- Every successful tail match captures a non-empty run of digits for the
lane, a single digit for the read, and a non-empty run of digits for the
chunk. -/
theorem matchTail_spec {l lane : List Char} {d : Char} {chunk : List Char}
    (h : matchTail l = some (lane, d, chunk)) :
    lane ≠ [] ∧ lane.all Char.isDigit = true ∧ d.isDigit = true ∧
      chunk ≠ [] ∧ chunk.all Char.isDigit = true := by
  unfold matchTail at h
  split at h
  · split at h
    · exact absurd h (by simp)
    · rename_i r1 h1
      split at h
      · split at h
        · rename_i d' r3 h2
          split at h
          · exact absurd h (by simp)
          · rename_i h3
            split at h
            · split at h
              · rename_i rest h4
                rw [Option.some.injEq] at h
                obtain ⟨rfl, rfl, rfl⟩ := Prod.mk.injEq .. ▸ h
                refine ⟨by simpa using h1, all_takeWhile .., h2, by simpa using h3,
                  all_takeWhile ..⟩
              · exact absurd h (by simp)
            · exact absurd h (by simp)
        · exact absurd h (by simp)
      · exact absurd h (by simp)
  · exact absurd h (by simp)

/-- Every successful index-and-tail match yields an index that is
`NoIndex`, `Undetermined`, or a non-empty run over `{A,C,G,T,-}`, with a
tail accepted by `matchTail`. -/
theorem matchIndexAndTail_spec {l : List Char} {idx : String}
    {t : List Char × Char × List Char}
    (h : matchIndexAndTail l = some (idx, t)) :
    (idx = "NoIndex" ∨ idx = "Undetermined" ∨
      (idx.data ≠ [] ∧ idx.data.all isIdxChar = true)) ∧
    ∃ l', matchTail l' = some t := by
  unfold matchIndexAndTail at h
  rw [Option.orElse_eq_some'] at h
  rcases h with h1 | ⟨-, h1⟩
  · split at h1
    · obtain ⟨t', ht', he⟩ := Option.map_eq_some'.mp h1
      injection he with h5 h6
      subst h5; subst h6
      exact ⟨Or.inl rfl, _, ht'⟩
    · exact absurd h1 (by simp)
  · rw [Option.orElse_eq_some'] at h1
    rcases h1 with h2 | ⟨-, h2⟩
    · split at h2
      · obtain ⟨t', ht', he⟩ := Option.map_eq_some'.mp h2
        injection he with h5 h6
        subst h5; subst h6
        exact ⟨Or.inr (Or.inl rfl), _, ht'⟩
      · exact absurd h2 (by simp)
    · split at h2
      · exact absurd h2 (by simp)
      · rename_i hne
        obtain ⟨t', ht', he⟩ := Option.map_eq_some'.mp h2
        injection he with h5 h6
        subst h5; subst h6
        refine ⟨Or.inr (Or.inr ⟨?_, ?_⟩), _, ht'⟩
        · intro hc
          have hnil : l.takeWhile isIdxChar = [] := by
            simpa [List.asString] using hc
          rw [hnil] at hne
          exact hne rfl
        · simp [List.asString]

/-- Every successful scan produces groups coming from a successful
index-and-tail match. -/
theorem scanFrom_spec {acc l : List Char} {g1 idx : String}
    {t : List Char × Char × List Char}
    (h : scanFrom acc l = some (g1, idx, t)) :
    ∃ l', matchIndexAndTail l' = some (idx, t) := by
  induction l generalizing acc with
  | nil => exact absurd h (by simp [scanFrom])
  | cons c rest ih =>
    unfold scanFrom at h
    split at h
    · exact absurd h (by simp)
    · split at h
      · split at h
        · rename_i idx' t' hm
          rw [Option.some.injEq] at h
          injection h with h1 h2
          injection h2 with h3 h4
          subst h3
          subst h4
          exact ⟨rest, hm⟩
        · exact ih h
      · exact ih h

/-- Every successful match of the filename pattern captures exactly five
groups: the sample id, the index word, the lane digits, the read digit and
the chunk digits. -/
theorem matchSampleFilename_shape {fname : String} {gs : List String}
    (h : matchSampleFilename fname = some gs) :
    ∃ g1 idx laneL d chunkL,
      gs = [g1, idx, laneL.asString, String.mk [d], chunkL.asString] ∧
      scanFrom [] fname.data = some (g1, idx, laneL, d, chunkL) := by
  unfold matchSampleFilename at h
  obtain ⟨⟨g1, idx, laneL, d, chunkL⟩, hs, he⟩ := Option.map_eq_some'.mp h
  exact ⟨g1, idx, laneL, d, chunkL, he.symm, hs⟩

theorem not_ws_of_digit (c : Char) (h : c.isDigit = true) : c.isWhitespace = false := by
  cases hw : c.isWhitespace
  · rfl
  · exfalso
    simp only [Char.isWhitespace, Bool.or_eq_true, decide_eq_true_eq] at hw
    rcases hw with ((rfl | rfl) | rfl) | rfl <;> exact absurd h (by decide)

theorem not_ws_of_idx (c : Char) (h : isIdxChar c = true) : c.isWhitespace = false := by
  simp only [isIdxChar, Bool.or_eq_true, decide_eq_true_eq] at h
  rcases h with (((rfl | rfl) | rfl) | rfl) | rfl <;> decide

theorem not_digit_of_idx (c : Char) (h : isIdxChar c = true) : c.isDigit = false := by
  simp only [isIdxChar, Bool.or_eq_true, decide_eq_true_eq] at h
  rcases h with (((rfl | rfl) | rfl) | rfl) | rfl <;> decide

theorem dropWhile_ws_of_all {p : Char → Bool}
    (hp : ∀ c, p c = true → c.isWhitespace = false) (l : List Char)
    (h : l.all p = true) : l.dropWhile Char.isWhitespace = l := by
  cases l with
  | nil => rfl
  | cons c t =>
    simp only [List.all_cons, Bool.and_eq_true] at h
    simp [List.dropWhile_cons, hp c h.1]

theorem pyStrip_of_all {p : Char → Bool}
    (hp : ∀ c, p c = true → c.isWhitespace = false) (l : List Char)
    (h : l.all p = true) : pyStrip (String.mk l) = l := by
  unfold pyStrip
  rw [show (String.mk l).data = l from rfl, dropWhile_ws_of_all hp l h,
    dropWhile_ws_of_all hp l.reverse (by simpa using h), List.reverse_reverse]

/-- `int(s)` succeeds on every non-empty all-digit group (the lane, read
and chunk captures). -/
theorem pyInt_digits (l : List Char) (hne : l ≠ []) (h : l.all Char.isDigit = true) :
    pyInt (String.mk l) = some (Int.ofNat (digitsVal l)) := by
  unfold pyInt
  rw [pyStrip_of_all not_ws_of_digit l h]
  cases l with
  | nil => exact absurd rfl hne
  | cons c t =>
    have hc : c.isDigit = true := by
      simp only [List.all_cons, Bool.and_eq_true] at h
      exact h.1
    have hc1 : c ≠ '-' := by rintro rfl; exact absurd hc (by decide)
    have hc2 : c ≠ '+' := by rintro rfl; exact absurd hc (by decide)
    split
    · rename_i rest heq
      exact absurd (List.head_eq_of_cons_eq heq) hc1
    · rename_i rest heq
      exact absurd (List.head_eq_of_cons_eq heq) hc2
    · rw [if_pos ⟨hne, h⟩]

/-- `int(s)` fails on every index capture (`NoIndex`, `Undetermined`, or a
non-empty run over `{A,C,G,T,-}`), so the index is kept as a string. -/
theorem pyInt_idx_none (l : List Char) (hne : l ≠ []) (h : l.all isIdxChar = true) :
    pyInt (String.mk l) = none := by
  unfold pyInt
  rw [pyStrip_of_all not_ws_of_idx l h]
  cases l with
  | nil => exact absurd rfl hne
  | cons c t =>
    have hct : isIdxChar c = true ∧ t.all isIdxChar = true := by
      simpa using h
    split
    · rename_i rest heq
      have ht : t = rest := List.tail_eq_of_cons_eq heq
      subst ht
      cases t with
      | nil => simp
      | cons c2 t2 =>
        have hc2 : isIdxChar c2 = true := by
          have h2 := hct.2
          simp only [List.all_cons, Bool.and_eq_true] at h2
          exact h2.1
        rw [if_neg]
        rintro ⟨-, hall⟩
        simp only [List.all_cons, Bool.and_eq_true] at hall
        rw [not_digit_of_idx c2 hc2] at hall
        exact Bool.false_ne_true hall.1
    · rename_i rest heq
      have : c = '+' := List.head_eq_of_cons_eq heq
      subst this
      exact absurd hct.1 (by decide)
    · rw [if_neg]
      rintro ⟨-, hall⟩
      simp only [List.all_cons, Bool.and_eq_true] at hall
      rw [not_digit_of_idx c hct.1] at hall
      exact Bool.false_ne_true hall.1

/-- A successful five-group match determines the decoder's result: each
group is converted with `int(...)`-with-fallback. -/
theorem parse_of_match5 {f a b c d e : String}
    (h : matchSampleFilename f = some [a, b, c, d, e]) :
    _parse_sample_filename f =
      Except.ok ⟨groupVal a, groupVal b, groupVal c, groupVal d, groupVal e⟩ := by
  unfold _parse_sample_filename
  rw [h]
  rfl

/-- C6: the decoder maps the two representative filenames to their field
dictionaries, and on every successfully decoded filename the Lane, Read
and Chunk fields are integers while the Index field is a string. -/
theorem claim_c6_filename_decode :
    _parse_sample_filename "SampleA_ACGTAC_L001_R1_001.fastq.gz" =
      Except.ok ⟨PVal.str "SampleA", PVal.str "ACGTAC", PVal.int 1, PVal.int 1, PVal.int 1⟩ ∧
    _parse_sample_filename "SampleA_NoIndex_L003_R2_001.fastq.gz" =
      Except.ok ⟨PVal.str "SampleA", PVal.str "NoIndex", PVal.int 3, PVal.int 2, PVal.int 1⟩ ∧
    ∀ f ff, _parse_sample_filename f = Except.ok ff →
      (∃ n : Int, ff.lane = PVal.int n) ∧ (∃ n : Int, ff.read = PVal.int n) ∧
      (∃ n : Int, ff.chunk = PVal.int n) ∧ ∃ s : String, ff.index = PVal.str s := by
  refine ⟨by rfl, by rfl, ?_⟩
  intro f ff hok
  cases hm : matchSampleFilename f with
  | none => simp [_parse_sample_filename, hm] at hok
  | some gs =>
    obtain ⟨g1, idx, laneL, d, chunkL, rfl, hscan⟩ := matchSampleFilename_shape hm
    rw [parse_of_match5 hm] at hok
    injection hok with hff
    subst hff
    obtain ⟨l', hmi⟩ := scanFrom_spec hscan
    obtain ⟨hidx, l2, hmt⟩ := matchIndexAndTail_spec hmi
    obtain ⟨hl1, hl2, hd, hc1, hc2⟩ := matchTail_spec hmt
    refine ⟨⟨Int.ofNat (digitsVal laneL), ?_⟩, ⟨Int.ofNat (digitsVal [d]), ?_⟩,
      ⟨Int.ofNat (digitsVal chunkL), ?_⟩, ?_⟩
    · show groupVal laneL.asString = _
      unfold groupVal
      rw [show laneL.asString = String.mk laneL from rfl, pyInt_digits laneL hl1 hl2]
    · show groupVal (String.mk [d]) = _
      unfold groupVal
      rw [pyInt_digits [d] (by simp) (by simp [hd])]
    · show groupVal chunkL.asString = _
      unfold groupVal
      rw [show chunkL.asString = String.mk chunkL from rfl, pyInt_digits chunkL hc1 hc2]
    · show ∃ s : String, groupVal idx = PVal.str s
      rcases hidx with rfl | rfl | ⟨hne, hall⟩
      · exact ⟨"NoIndex", by rfl⟩
      · exact ⟨"Undetermined", by rfl⟩
      · have hp := pyInt_idx_none idx.data hne hall
        rw [show String.mk idx.data = idx from rfl] at hp
        exact ⟨idx, by unfold groupVal; rw [hp]⟩

/-- Witness for C6's universally quantified part at the first
representative filename. -/
theorem claim_c6_filename_decode_witness :
    (∃ n : Int, FilenameFields.lane
        ⟨PVal.str "SampleA", PVal.str "ACGTAC", PVal.int 1, PVal.int 1, PVal.int 1⟩ =
      PVal.int n) ∧
    (∃ n : Int, FilenameFields.read
        ⟨PVal.str "SampleA", PVal.str "ACGTAC", PVal.int 1, PVal.int 1, PVal.int 1⟩ =
      PVal.int n) ∧
    (∃ n : Int, FilenameFields.chunk
        ⟨PVal.str "SampleA", PVal.str "ACGTAC", PVal.int 1, PVal.int 1, PVal.int 1⟩ =
      PVal.int n) ∧
    ∃ s : String, FilenameFields.index
        ⟨PVal.str "SampleA", PVal.str "ACGTAC", PVal.int 1, PVal.int 1, PVal.int 1⟩ =
      PVal.str s :=
  claim_c6_filename_decode.2.2 "SampleA_ACGTAC_L001_R1_001.fastq.gz" _ (by rfl)

/-- C7: the decoder fails (with `ValueError('Invalid file name format')`)
exactly on the inputs the pattern does not match; in particular
`not_a_valid_name.txt` fails. -/
theorem claim_c7_invalid_filename :
    (∀ f : String,
      (∃ e, _parse_sample_filename f = Except.error e) ↔ matchSampleFilename f = none) ∧
    _parse_sample_filename "not_a_valid_name.txt" =
      Except.error "Invalid file name format" := by
  refine ⟨?_, by rfl⟩
  intro f
  constructor
  · rintro ⟨e, he⟩
    cases hm : matchSampleFilename f with
    | none => rfl
    | some gs =>
      obtain ⟨g1, idx, laneL, d, chunkL, rfl, -⟩ := matchSampleFilename_shape hm
      rw [parse_of_match5 hm] at he
      exact Except.noConfusion he
  · intro hm
    refine ⟨"Invalid file name format", ?_⟩
    unfold _parse_sample_filename
    rw [hm]
    rfl

/-- Witness for C7 at the representative invalid filename. -/
theorem claim_c7_invalid_filename_witness :
    matchSampleFilename "not_a_valid_name.txt" = none :=
  (claim_c7_invalid_filename.1 "not_a_valid_name.txt").mp
    ⟨"Invalid file name format", claim_c7_invalid_filename.2⟩

/-- C10: `int(...)` is attempted on every captured group, so an all-digit
sample-id group is returned as an integer, not a string; concretely,
`123_ACGTAC_L001_R1_001.fastq.gz` decodes with `SampleID = 123`. -/
theorem claim_c10_numeric_sampleid :
    _parse_sample_filename "123_ACGTAC_L001_R1_001.fastq.gz" =
      Except.ok ⟨PVal.int 123, PVal.str "ACGTAC", PVal.int 1, PVal.int 1, PVal.int 1⟩ ∧
    ∀ f g1 rest, matchSampleFilename f = some (g1 :: rest) → g1.data ≠ [] →
      g1.data.all Char.isDigit = true →
      ∃ ff, _parse_sample_filename f = Except.ok ff ∧
        ff.sampleID = PVal.int (Int.ofNat (digitsVal g1.data)) := by
  refine ⟨by rfl, ?_⟩
  intro f g1 rest hm hne hdig
  obtain ⟨g1', idx, laneL, d, chunkL, heq, -⟩ := matchSampleFilename_shape hm
  have hg : g1 = g1' := List.head_eq_of_cons_eq heq
  subst hg
  rw [heq] at hm
  refine ⟨_, parse_of_match5 hm, ?_⟩
  show groupVal g1 = _
  unfold groupVal
  have hp := pyInt_digits g1.data hne hdig
  rw [show String.mk g1.data = g1 from rfl] at hp
  rw [hp]

/-- Witness for C10's universally quantified part at the concrete all-digit
sample id. -/
theorem claim_c10_numeric_sampleid_witness :
    ∃ ff, _parse_sample_filename "123_ACGTAC_L001_R1_001.fastq.gz" = Except.ok ff ∧
      ff.sampleID = PVal.int (Int.ofNat (digitsVal ("123" : String).data)) :=
  claim_c10_numeric_sampleid.2 "123_ACGTAC_L001_R1_001.fastq.gz" "123"
    ["ACGTAC", "001", "1", "001"] (by rfl) (by decide) (by decide)

theorem sInsert_perm (le : α → α → Bool) (x : α) (l : List α) :
    (sInsert le x l).Perm (x :: l) := by
  induction l with
  | nil => exact List.Perm.refl _
  | cons y ys ih =>
    unfold sInsert
    by_cases h : le x y = true
    · rw [if_pos h]
    · rw [if_neg h]
      exact (ih.cons y).trans (List.Perm.swap x y ys)

theorem sSort_perm (le : α → α → Bool) (l : List α) : (sSort le l).Perm l := by
  induction l with
  | nil => exact List.Perm.refl _
  | cons x xs ih => exact (sInsert_perm le x (sSort le xs)).trans (ih.cons x)

theorem mem_sInsert {le : α → α → Bool} {x a : α} {l : List α} :
    a ∈ sInsert le x l ↔ a = x ∨ a ∈ l := by
  rw [(sInsert_perm le x l).mem_iff, List.mem_cons]

theorem sInsert_sorted {le : α → α → Bool}
    (htot : ∀ a b, le a b = true ∨ le b a = true)
    (htr : ∀ a b c, le a b = true → le b c = true → le a c = true)
    (x : α) {l : List α} (hl : l.Pairwise (fun a b => le a b = true)) :
    (sInsert le x l).Pairwise (fun a b => le a b = true) := by
  induction l with
  | nil => simp [sInsert]
  | cons y ys ih =>
    rw [List.pairwise_cons] at hl
    obtain ⟨hy, hys⟩ := hl
    unfold sInsert
    by_cases h : le x y = true
    · rw [if_pos h]
      refine List.Pairwise.cons ?_ (List.Pairwise.cons hy hys)
      intro z hz
      rcases List.mem_cons.mp hz with rfl | hz'
      · exact h
      · exact htr x y z h (hy z hz')
    · rw [if_neg h]
      refine List.Pairwise.cons ?_ (ih hys)
      intro z hz
      rcases mem_sInsert.mp hz with rfl | hz'
      · rcases htot y z with hyz | hzy
        · exact hyz
        · exact absurd hzy h
      · exact hy z hz'

theorem sSort_sorted {le : α → α → Bool}
    (htot : ∀ a b, le a b = true ∨ le b a = true)
    (htr : ∀ a b c, le a b = true → le b c = true → le a c = true)
    (l : List α) : (sSort le l).Pairwise (fun a b => le a b = true) := by
  induction l with
  | nil => simp [sSort]
  | cons x xs ih => exact sInsert_sorted htot htr x ih

theorem keyLe_total (a b : String × String) : keyLe a b = true ∨ keyLe b a = true := by
  unfold keyLe
  rcases lt_trichotomy a.1 b.1 with h | h | h
  · left; simp [h]
  · rcases le_total a.2 b.2 with h2 | h2
    · left; simp [h, h2]
    · right; simp [h.symm, h2]
  · right; simp [h]

theorem keyLe_trans (a b c : String × String)
    (hab : keyLe a b = true) (hbc : keyLe b c = true) : keyLe a c = true := by
  unfold keyLe at hab hbc ⊢
  simp only [Bool.or_eq_true, Bool.and_eq_true, decide_eq_true_eq] at hab hbc ⊢
  rcases hab with h1 | ⟨h1, h1'⟩ <;> rcases hbc with h2 | ⟨h2, h2'⟩
  · exact Or.inl (h1.trans h2)
  · exact Or.inl (h2 ▸ h1)
  · exact Or.inl (h1 ▸ h2)
  · exact Or.inr ⟨h1.trans h2, h1'.trans h2'⟩

theorem rowLe_total (a b : Row) : rowLe a b = true ∨ rowLe b a = true :=
  keyLe_total (rowKey a) (rowKey b)

theorem rowLe_trans (a b c : Row)
    (hab : rowLe a b = true) (hbc : rowLe b c = true) : rowLe a c = true :=
  keyLe_trans (rowKey a) (rowKey b) (rowKey c) hab hbc

theorem lastHeader_of_all (sheets : List Sheet) (H : List String)
    (hne : sheets ≠ []) (hH : ∀ s ∈ sheets, s.header = H) :
    lastHeader sheets = H := by
  induction sheets with
  | nil => exact absurd rfl hne
  | cons s rest ih =>
    cases rest with
    | nil =>
      simp only [lastHeader, List.foldl]
      exact hH s (List.mem_cons_self ..)
    | cons s2 rest2 =>
      have : lastHeader (s2 :: rest2) = H :=
        ih (by simp) (fun x hx => hH x (List.mem_cons_of_mem s hx))
      simpa [lastHeader, List.foldl] using this

theorem concatRows_mem {sheets : List Sheet} {r : Row} :
    r ∈ concatRows sheets ↔ ∃ s ∈ sheets, r ∈ s.rows := by
  have haux : ∀ (ss : List Sheet) (acc : List Row),
      (r ∈ ss.foldl (fun acc s => acc ++ s.rows) acc ↔
        r ∈ acc ∨ ∃ s ∈ ss, r ∈ s.rows) := by
    intro ss
    induction ss with
    | nil => simp
    | cons s rest ih =>
      intro acc
      rw [List.foldl_cons, ih (acc ++ s.rows)]
      simp only [List.mem_append, List.mem_cons]
      constructor
      · rintro ((h | h) | ⟨s', hs', hr⟩)
        · exact Or.inl h
        · exact Or.inr ⟨s, Or.inl rfl, h⟩
        · exact Or.inr ⟨s', Or.inr hs', hr⟩
      · rintro (h | ⟨s', (rfl | hs'), hr⟩)
        · exact Or.inl (Or.inl h)
        · exact Or.inl (Or.inr hr)
        · exact Or.inr ⟨s', hs', hr⟩
  simpa using haux sheets []

theorem rget_isSome_of_mem_keys {r : Row} {k : String} (h : k ∈ rkeys r) :
    (rget r k).isSome = true := by
  induction r with
  | nil => simp [rkeys] at h
  | cons kv t ih =>
    obtain ⟨k', v⟩ := kv
    rcases List.mem_cons.mp h with h1 | h1
    · simp only [rkeys, List.map_cons] at h1
      simp [rget, h1]
    · by_cases hk : k' = k
      · simp [rget, hk]
      · simpa [rget, hk] using ih h1

theorem rget_of_mem_nodup {r : Row} {k v : String}
    (hnd : (rkeys r).Nodup) (h : (k, v) ∈ r) : rget r k = some v := by
  induction r with
  | nil => simp at h
  | cons kv t ih =>
    obtain ⟨k', v'⟩ := kv
    simp only [rkeys, List.map_cons, List.nodup_cons] at hnd
    rcases List.mem_cons.mp h with h1 | h1
    · injection h1 with h2 h3
      subst h2; subst h3
      simp [rget]
    · have hk : k' ≠ k := by
        rintro rfl
        exact hnd.1 (by simpa [rkeys] using List.mem_map_of_mem Prod.fst h1)
      simpa [rget, hk] using ih hnd.2 h1

/-- On a row whose keys are exactly the (duplicate-free) header, the
written row is the row itself. -/
theorem projRow_id {header : List String} {r : Row}
    (hnd : header.Nodup) (hk : rkeys r = header) : projRow header r = r := by
  subst hk
  induction r with
  | nil => rfl
  | cons kv t ih =>
    obtain ⟨k, v⟩ := kv
    simp only [rkeys, List.map_cons, List.nodup_cons] at hnd
    unfold projRow
    rw [show rkeys ((k, v) :: t) = k :: rkeys t from rfl, List.map_cons]
    have h1 : rgetD ((k, v) :: t) k "" = v := by simp [rgetD, rget]
    rw [h1]
    have h2 : ∀ k' ∈ rkeys t, rgetD ((k, v) :: t) k' "" = rgetD t k' "" := by
      intro k' hk'
      have : k ≠ k' := by rintro rfl; exact hnd.1 hk'
      simp [rgetD, rget, this]
    have h3 : (rkeys t).map (fun k' => (k', rgetD ((k, v) :: t) k' "")) =
        (rkeys t).map (fun k' => (k', rgetD t k' "")) :=
      List.map_congr_left (fun k' hk' => by rw [h2 k' hk'])
    rw [h3]
    exact congrArg _ (ih hnd.2)

theorem map_eq_self_of_forall {α : Type} {f : α → α} {l : List α}
    (h : ∀ a ∈ l, f a = a) : l.map f = l := by
  induction l with
  | nil => rfl
  | cons x xs ih =>
    rw [List.map_cons, h x (List.mem_cons_self ..), ih fun a ha => h a (List.mem_cons_of_mem x ha)]

/-- C4: on input sheets that share one (duplicate-free) header containing
`Lane` and `Index`, the merged rows are exactly the multiset union of all
input rows (a permutation of the concatenation: duplicates preserved, no
row dropped), sorted ascending by the `(Lane, Index)` key compared as raw
strings. -/
theorem claim_c4_merge_union_sorted (sheets : List Sheet) (H : List String)
    (hne : sheets ≠ []) (hnd : H.Nodup)
    (hLane : "Lane" ∈ H) (hIndex : "Index" ∈ H)
    (hH : ∀ s ∈ sheets, s.header = H)
    (hwf : ∀ s ∈ sheets, ∀ r ∈ s.rows, rkeys r = H) :
    ∃ out, _merge_samplesheets sheets = Except.ok ⟨H, out⟩ ∧
      out.Perm (concatRows sheets) ∧
      out.Pairwise (fun a b => rowLe a b = true) := by
  have hrowkeys : ∀ r ∈ concatRows sheets, rkeys r = H := by
    intro r hr
    obtain ⟨s, hs, hrs⟩ := concatRows_mem.mp hr
    exact hwf s hs r hrs
  have hlh : lastHeader sheets = H := lastHeader_of_all sheets H hne hH
  have hsk : (concatRows sheets).all hasSortKeys = true := by
    rw [List.all_eq_true]
    intro r hr
    unfold hasSortKeys
    rw [rget_isSome_of_mem_keys (k := "Lane") (by rw [hrowkeys r hr]; exact hLane),
      rget_isSome_of_mem_keys (k := "Index") (by rw [hrowkeys r hr]; exact hIndex)]
    rfl
  have hsub : (sSort rowLe (concatRows sheets)).all
      (fun r => (rkeys r).all (lastHeader sheets).contains) = true := by
    rw [List.all_eq_true]
    intro r hr
    have hrc : r ∈ concatRows sheets := (sSort_perm rowLe _).subset hr
    rw [List.all_eq_true]
    intro k hk
    rw [hrowkeys r hrc] at hk
    rw [hlh]
    exact List.elem_eq_true_of_mem hk
  refine ⟨(sSort rowLe (concatRows sheets)).map (projRow (lastHeader sheets)), ?_, ?_, ?_⟩
  · unfold _merge_samplesheets
    rw [hsk, if_pos rfl, hsub, if_pos rfl, hlh]
  · have hid : (sSort rowLe (concatRows sheets)).map (projRow (lastHeader sheets)) =
        sSort rowLe (concatRows sheets) := by
      exact map_eq_self_of_forall fun r hr =>
        projRow_id (hlh ▸ hnd) (by rw [hlh]; exact hrowkeys r ((sSort_perm rowLe _).subset hr))
    rw [hid]
    exact sSort_perm rowLe _
  · have hid : (sSort rowLe (concatRows sheets)).map (projRow (lastHeader sheets)) =
        sSort rowLe (concatRows sheets) := by
      exact map_eq_self_of_forall fun r hr =>
        projRow_id (hlh ▸ hnd) (by rw [hlh]; exact hrowkeys r ((sSort_perm rowLe _).subset hr))
    rw [hid]
    exact sSort_sorted rowLe_total rowLe_trans _

/-- Witness for C4 at two concrete single-column-set sheets with a
duplicated row across sheets and lanes whose raw-string order differs from
numeric order. -/
theorem claim_c4_merge_union_sorted_witness :
    ∃ out, _merge_samplesheets
        [⟨["Lane", "Index"], [[("Lane", "10"), ("Index", "A")], [("Lane", "2"), ("Index", "A")]]⟩,
         ⟨["Lane", "Index"], [[("Lane", "2"), ("Index", "A")]]⟩] =
      Except.ok ⟨["Lane", "Index"], out⟩ ∧
      out.Perm (concatRows
        [⟨["Lane", "Index"], [[("Lane", "10"), ("Index", "A")], [("Lane", "2"), ("Index", "A")]]⟩,
         ⟨["Lane", "Index"], [[("Lane", "2"), ("Index", "A")]]⟩]) ∧
      out.Pairwise (fun a b => rowLe a b = true) :=
  claim_c4_merge_union_sorted
    [⟨["Lane", "Index"], [[("Lane", "10"), ("Index", "A")], [("Lane", "2"), ("Index", "A")]]⟩,
     ⟨["Lane", "Index"], [[("Lane", "2"), ("Index", "A")]]⟩]
    ["Lane", "Index"] (by decide) (by decide) (by decide) (by decide)
    (by decide) (by decide)

/-- C3 counterexample: two sheets with different headers (the second has an
extra `Extra` column) merge without any error at all — there is no
`SchemaMismatchError` (the source defines no such error and performs no
header comparison); the rows of the first sheet are silently written under
the last sheet's header, padded with an empty `Extra` field. -/
theorem claim_c3_counterexample :
    Sheet.header ⟨["Lane", "Index"], [[("Lane", "1"), ("Index", "A")]]⟩ ≠
      Sheet.header ⟨["Lane", "Index", "Extra"], ([] : List Row)⟩ ∧
    _merge_samplesheets
        [⟨["Lane", "Index"], [[("Lane", "1"), ("Index", "A")]]⟩,
         ⟨["Lane", "Index", "Extra"], []⟩] =
      Except.ok ⟨["Lane", "Index", "Extra"],
        [[("Lane", "1"), ("Index", "A"), ("Extra", "")]]⟩ :=
  ⟨by decide, by rfl⟩

/-- C3 amended: the merge performs no header-consistency check and cannot
raise a `SchemaMismatchError`.  It writes under the last sheet's header:
when every row's columns are contained in that header — whether or not the
headers agree — it silently succeeds, keeping every column of every row
(padding columns a row lacks with the empty string); when some row has a
column outside the last header, it fails with `csv.DictWriter`'s
`ValueError`. -/
theorem claim_c3_merge_no_header_check (sheets : List Sheet)
    (hkeys : ∀ r ∈ concatRows sheets, hasSortKeys r = true) :
    ((∀ r ∈ concatRows sheets, (rkeys r).all (lastHeader sheets).contains = true) →
      ∃ out, _merge_samplesheets sheets = Except.ok ⟨lastHeader sheets, out⟩ ∧
        out.length = (concatRows sheets).length ∧
        ∀ r ∈ concatRows sheets, (rkeys r).Nodup →
          ∀ kv ∈ r, kv ∈ projRow (lastHeader sheets) r) ∧
    ((∃ r ∈ concatRows sheets, ¬ (rkeys r).all (lastHeader sheets).contains = true) →
      _merge_samplesheets sheets =
        Except.error (PyErr.valueError "dict contains fields not in fieldnames")) := by
  have hsk : (concatRows sheets).all hasSortKeys = true :=
    List.all_eq_true.mpr hkeys
  constructor
  · intro hsub
    have hsub' : (sSort rowLe (concatRows sheets)).all
        (fun r => (rkeys r).all (lastHeader sheets).contains) = true :=
      List.all_eq_true.mpr fun r hr => hsub r ((sSort_perm rowLe _).subset hr)
    refine ⟨(sSort rowLe (concatRows sheets)).map (projRow (lastHeader sheets)), ?_, ?_, ?_⟩
    · unfold _merge_samplesheets
      rw [hsk, if_pos rfl, hsub', if_pos rfl]
    · rw [List.length_map]
      exact (sSort_perm rowLe _).length_eq
    · intro r hr hnd kv hkv
      obtain ⟨k, v⟩ := kv
      have hkmem : k ∈ lastHeader sheets := by
        have h1 := hsub r hr
        rw [List.all_eq_true] at h1
        have h2 := h1 k (by
          unfold rkeys
          exact List.mem_map_of_mem Prod.fst hkv)
        exact List.elem_iff.mp h2
      have hval : rgetD r k "" = v := by
        unfold rgetD
        rw [rget_of_mem_nodup hnd hkv]
        rfl
      unfold projRow
      rw [List.mem_map]
      exact ⟨k, hkmem, by rw [hval]⟩
  · rintro ⟨r, hr, hbad⟩
    have hsub' : (sSort rowLe (concatRows sheets)).all
        (fun r => (rkeys r).all (lastHeader sheets).contains) = false := by
      rcases hb : (sSort rowLe (concatRows sheets)).all
          (fun r => (rkeys r).all (lastHeader sheets).contains) with _ | _
      · rfl
      · rw [List.all_eq_true] at hb
        exact absurd (hb r (((sSort_perm rowLe _).mem_iff).mpr hr)) hbad
    unfold _merge_samplesheets
    rw [hsk, if_pos rfl, hsub']
    rfl

/-- Witness for C3's amended theorem at the counterexample's sheets (the
silently succeeding branch). -/
theorem claim_c3_merge_no_header_check_witness :
    ∃ out, _merge_samplesheets
        [⟨["Lane", "Index"], [[("Lane", "1"), ("Index", "A")]]⟩,
         ⟨["Lane", "Index", "Extra"], []⟩] =
      Except.ok ⟨lastHeader
        [⟨["Lane", "Index"], [[("Lane", "1"), ("Index", "A")]]⟩,
         ⟨["Lane", "Index", "Extra"], []⟩], out⟩ ∧
      out.length = (concatRows
        [⟨["Lane", "Index"], [[("Lane", "1"), ("Index", "A")]]⟩,
         ⟨["Lane", "Index", "Extra"], []⟩]).length ∧
      ∀ r ∈ concatRows
        [⟨["Lane", "Index"], [[("Lane", "1"), ("Index", "A")]]⟩,
         ⟨["Lane", "Index", "Extra"], []⟩], (rkeys r).Nodup →
        ∀ kv ∈ r, kv ∈ projRow (lastHeader
          [⟨["Lane", "Index"], [[("Lane", "1"), ("Index", "A")]]⟩,
           ⟨["Lane", "Index", "Extra"], []⟩]) r :=
  (claim_c3_merge_no_header_check
    [⟨["Lane", "Index"], [[("Lane", "1"), ("Index", "A")]]⟩,
     ⟨["Lane", "Index", "Extra"], []⟩]
    (by decide)).1 (by decide)

theorem HeapExtends.rfl (h : Heap) : HeapExtends h h :=
  ⟨⟨[], by simp⟩, ⟨[], by simp⟩⟩

theorem heapExtends_trans {h1 h2 h3 : Heap}
    (a : HeapExtends h1 h2) (b : HeapExtends h2 h3) : HeapExtends h1 h3 := by
  obtain ⟨⟨ls1, hl1⟩, ⟨ss1, hs1⟩⟩ := a
  obtain ⟨⟨ls2, hl2⟩, ⟨ss2, hs2⟩⟩ := b
  exact ⟨⟨ls1 ++ ls2, by rw [hl2, hl1, List.append_assoc]⟩,
    ⟨ss1 ++ ss2, by rw [hs2, hs1, List.append_assoc]⟩⟩

theorem HeapExtends.lanes_le {h h2 : Heap} (he : HeapExtends h h2) :
    h.lanes.length ≤ h2.lanes.length := by
  obtain ⟨⟨ls, hl⟩, -⟩ := he
  simp [hl]

theorem HeapExtends.samples_le {h h2 : Heap} (he : HeapExtends h h2) :
    h.samples.length ≤ h2.samples.length := by
  obtain ⟨-, ⟨ss, hs⟩⟩ := he
  simp [hs]

theorem laneAt_extends {h h2 : Heap} (he : HeapExtends h h2) {a : Nat}
    (ha : a < h.lanes.length) : laneAt h2 a = laneAt h a := by
  obtain ⟨⟨ls, hl⟩, -⟩ := he
  unfold laneAt
  rw [hl, List.getElem?_append_left ha]

theorem sampleAt_extends {h h2 : Heap} (he : HeapExtends h h2) {a : Nat}
    (ha : a < h.samples.length) : sampleAt h2 a = sampleAt h a := by
  obtain ⟨-, ⟨ss, hs⟩⟩ := he
  unfold sampleAt
  rw [hs, List.getElem?_append_left ha]

theorem readLane_congr {h h2 : Heap} {a : Nat}
    (hl : laneAt h2 a = laneAt h a)
    (hs : ∀ mas, (laneAt h a).multiplex = some mas →
      ∀ sa ∈ mas, sampleAt h2 sa = sampleAt h sa) :
    readLane h2 a = readLane h a := by
  unfold readLane
  rw [hl]
  cases hm : (laneAt h a).multiplex with
  | none => rfl
  | some mas =>
    have hmm : mas.map (sampleAt h2) = mas.map (sampleAt h) :=
      List.map_congr_left fun sa hsa => hs mas hm sa hsa
    rw [show Option.map (fun l => List.map (sampleAt h2) l) (some mas) =
          some (mas.map (sampleAt h2)) from rfl,
        show Option.map (fun l => List.map (sampleAt h) l) (some mas) =
          some (mas.map (sampleAt h)) from rfl, hmm]

theorem readLane_extends {h h2 : Heap} (he : HeapExtends h h2) {a : Nat}
    (ha : a < h.lanes.length)
    (hm : ∀ mas, (laneAt h a).multiplex = some mas → ∀ sa ∈ mas, sa < h.samples.length) :
    readLane h2 a = readLane h a :=
  readLane_congr (laneAt_extends he ha)
    (fun mas hmas sa hsa => sampleAt_extends he (hm mas hmas sa hsa))

theorem copySamples_spec (mas : List Nat) (h : Heap)
    (hv : ∀ a ∈ mas, a < h.samples.length) :
    HeapExtends h (copySamples h mas).1 ∧
    (copySamples h mas).1.lanes = h.lanes ∧
    (∀ a1 ∈ (copySamples h mas).2,
      h.samples.length ≤ a1 ∧ a1 < (copySamples h mas).1.samples.length) ∧
    (copySamples h mas).2.map (sampleAt (copySamples h mas).1) =
      mas.map (sampleAt h) := by
  induction mas generalizing h with
  | nil =>
    refine ⟨HeapExtends.rfl h, rfl, ?_, rfl⟩
    intro a1 ha1
    exact absurd ha1 (List.not_mem_nil a1)
  | cons a rest ih =>
    have hstep : copySamples h (a :: rest) =
        ((copySamples { h with samples := h.samples ++ [sampleAt h a] } rest).1,
          h.samples.length ::
            (copySamples { h with samples := h.samples ++ [sampleAt h a] } rest).2) :=
      rfl
    set h1 : Heap := { h with samples := h.samples ++ [sampleAt h a] } with hh1
    have he1 : HeapExtends h h1 := ⟨⟨[], by simp [hh1]⟩, ⟨[sampleAt h a], rfl⟩⟩
    have hv1 : ∀ b ∈ rest, b < h1.samples.length := fun b hb =>
      lt_of_lt_of_le (hv b (List.mem_cons_of_mem a hb)) he1.samples_le
    obtain ⟨ihe, ihl, ihb, ihm⟩ := ih h1 hv1
    rw [hstep]
    refine ⟨heapExtends_trans he1 ihe, ihl, ?_, ?_⟩
    · intro a1 ha1
      rcases List.mem_cons.mp ha1 with rfl | ha1
      · refine ⟨le_refl _, lt_of_lt_of_le ?_ ihe.samples_le⟩
        simp [hh1]
      · obtain ⟨hb1, hb2⟩ := ihb a1 ha1
        refine ⟨le_trans ?_ hb1, hb2⟩
        simp [hh1]
    · rw [List.map_cons, List.map_cons, ihm]
      have h1a : sampleAt (copySamples h1 rest).1 h.samples.length = sampleAt h a := by
        rw [sampleAt_extends ihe (by simp [hh1])]
        unfold sampleAt
        simp only [hh1]
        rw [List.getElem?_concat_length]
        rfl
      rw [h1a]
      have : rest.map (sampleAt h1) = rest.map (sampleAt h) :=
        List.map_congr_left fun b hb =>
          sampleAt_extends he1 (hv b (List.mem_cons_of_mem a hb))
      rw [this]

theorem copyLane_spec (h : Heap) (a : Nat)
    (hv : ∀ mas, (laneAt h a).multiplex = some mas → ∀ sa ∈ mas, sa < h.samples.length) :
    HeapExtends h (copyLane h a).1 ∧
    (h.lanes.length ≤ (copyLane h a).2 ∧ (copyLane h a).2 < (copyLane h a).1.lanes.length) ∧
    (∀ mas1, (laneAt (copyLane h a).1 (copyLane h a).2).multiplex = some mas1 →
      ∀ sa ∈ mas1, h.samples.length ≤ sa ∧ sa < (copyLane h a).1.samples.length) ∧
    readLane (copyLane h a).1 (copyLane h a).2 = readLane h a := by
  cases hm : (laneAt h a).multiplex with
  | none =>
    have hc : copyLane h a =
        ({ h with lanes := h.lanes ++ [⟨(laneAt h a).entries, none⟩] }, h.lanes.length) := by
      unfold copyLane
      rw [hm]
      rfl
    rw [hc]
    have hla : laneAt { h with lanes := h.lanes ++ [⟨(laneAt h a).entries, none⟩] }
        h.lanes.length = ⟨(laneAt h a).entries, none⟩ := by
      unfold laneAt
      rw [List.getElem?_concat_length]
      rfl
    refine ⟨⟨⟨[⟨(laneAt h a).entries, none⟩], rfl⟩, ⟨[], by simp⟩⟩,
      ⟨le_refl _, by simp⟩, ?_, ?_⟩
    · intro mas1 hmas1
      rw [hla] at hmas1
      exact absurd hmas1 (by simp)
    · unfold readLane
      rw [hla, hm]
      rfl
  | some mas =>
    obtain ⟨ce, cl, cb, cm⟩ := copySamples_spec mas h (hv mas hm)
    have hc : copyLane h a =
        ({ (copySamples h mas).1 with lanes := (copySamples h mas).1.lanes ++
            [⟨(laneAt h a).entries, some (copySamples h mas).2⟩] },
          (copySamples h mas).1.lanes.length) := by
      unfold copyLane
      rw [hm]
      rfl
    have hla : laneAt { (copySamples h mas).1 with lanes := (copySamples h mas).1.lanes ++
        [⟨(laneAt h a).entries, some (copySamples h mas).2⟩] }
        (copySamples h mas).1.lanes.length =
        ⟨(laneAt h a).entries, some (copySamples h mas).2⟩ := by
      unfold laneAt
      rw [List.getElem?_concat_length]
      rfl
    have he2 : HeapExtends (copySamples h mas).1
        { (copySamples h mas).1 with lanes := (copySamples h mas).1.lanes ++
            [⟨(laneAt h a).entries, some (copySamples h mas).2⟩] } :=
      ⟨⟨[⟨(laneAt h a).entries, some (copySamples h mas).2⟩], rfl⟩, ⟨[], by simp⟩⟩
    rw [hc]
    refine ⟨heapExtends_trans ce he2, ⟨by rw [cl], by simp⟩, ?_, ?_⟩
    · intro mas1 hmas1
      rw [hla] at hmas1
      injection hmas1 with hmas1
      subst hmas1
      intro sa hsa
      obtain ⟨hb1, hb2⟩ := cb sa hsa
      exact ⟨hb1, hb2⟩
    · unfold readLane
      rw [hla, hm]
      have hsame : ∀ sa, sampleAt { (copySamples h mas).1 with
          lanes := (copySamples h mas).1.lanes ++
            [⟨(laneAt h a).entries, some (copySamples h mas).2⟩] } sa =
          sampleAt (copySamples h mas).1 sa := fun sa => rfl
      have : ((copySamples h mas).2.map (sampleAt { (copySamples h mas).1 with
          lanes := (copySamples h mas).1.lanes ++
            [⟨(laneAt h a).entries, some (copySamples h mas).2⟩] })) =
          mas.map (sampleAt h) := by
        rw [List.map_congr_left fun sa _ => hsame sa]
        exact cm
      rw [show Option.map (fun l => List.map (sampleAt { (copySamples h mas).1 with
          lanes := (copySamples h mas).1.lanes ++
            [⟨(laneAt h a).entries, some (copySamples h mas).2⟩] }) l)
          (some (copySamples h mas).2) =
          some ((copySamples h mas).2.map (sampleAt { (copySamples h mas).1 with
            lanes := (copySamples h mas).1.lanes ++
              [⟨(laneAt h a).entries, some (copySamples h mas).2⟩] })) from rfl, this]
      rfl

theorem forall2_imp_mem {α β : Type} {R S : α → β → Prop} {l1 : List α} {l2 : List β}
    (h : List.Forall₂ R l1 l2) (himp : ∀ a b, b ∈ l2 → R a b → S a b) :
    List.Forall₂ S l1 l2 := by
  induction h with
  | nil => exact List.Forall₂.nil
  | cons hab _ ih =>
    rename_i a b l1' l2' _
    exact List.Forall₂.cons (himp a b (List.mem_cons_self ..) hab)
      (ih fun x y hy hr => himp x y (List.mem_cons_of_mem b hy) hr)

theorem forall2_mem_left {α β : Type} {R : α → β → Prop} {l1 : List α} {l2 : List β}
    (h : List.Forall₂ R l1 l2) {a : α} (ha : a ∈ l1) : ∃ b ∈ l2, R a b := by
  induction h with
  | nil => exact absurd ha (List.not_mem_nil a)
  | cons hab _ ih =>
    rename_i x y l1' l2' _
    rcases List.mem_cons.mp ha with rfl | ha'
    · exact ⟨y, List.mem_cons_self .., hab⟩
    · obtain ⟨b, hb, hr⟩ := ih ha'
      exact ⟨b, List.mem_cons_of_mem y hb, hr⟩

theorem forall2_map_eq {α β γ : Type} {f : α → γ} {g : β → γ} {l1 : List α} {l2 : List β}
    (h : List.Forall₂ (fun a b => f a = g b) l1 l2) : l1.map f = l2.map g := by
  induction h with
  | nil => rfl
  | cons hab _ ih => simpa [hab] using ih

theorem deepcopyConfig_spec (cfg : List Nat) (h : Heap) (hv : ValidConfig h cfg) :
    HeapExtends h (deepcopyConfig h cfg).1 ∧
    (∀ a1 ∈ (deepcopyConfig h cfg).2,
      h.lanes.length ≤ a1 ∧ a1 < (deepcopyConfig h cfg).1.lanes.length ∧
      ∀ mas1, (laneAt (deepcopyConfig h cfg).1 a1).multiplex = some mas1 →
        ∀ sa ∈ mas1, h.samples.length ≤ sa ∧ sa < (deepcopyConfig h cfg).1.samples.length) ∧
    List.Forall₂ (fun a1 a => readLane (deepcopyConfig h cfg).1 a1 = readLane h a)
      (deepcopyConfig h cfg).2 cfg := by
  induction cfg generalizing h with
  | nil =>
    refine ⟨HeapExtends.rfl h, ?_, List.Forall₂.nil⟩
    intro a1 ha1
    exact absurd ha1 (List.not_mem_nil a1)
  | cons a rest ih =>
    obtain ⟨hva, hvmult⟩ := hv a (List.mem_cons_self ..)
    obtain ⟨ce, ⟨cb1, cb2⟩, cmult, crd⟩ := copyLane_spec h a hvmult
    have hv1 : ValidConfig (copyLane h a).1 rest := by
      intro b hb
      obtain ⟨hb1, hb2⟩ := hv b (List.mem_cons_of_mem a hb)
      refine ⟨lt_of_lt_of_le hb1 ce.lanes_le, ?_⟩
      intro mas hmas
      rw [laneAt_extends ce hb1] at hmas
      intro sa hsa
      exact lt_of_lt_of_le (hb2 mas hmas sa hsa) ce.samples_le
    obtain ⟨ie, ib, irel⟩ := ih (copyLane h a).1 hv1
    have hstep : deepcopyConfig h (a :: rest) =
        ((deepcopyConfig (copyLane h a).1 rest).1,
          (copyLane h a).2 :: (deepcopyConfig (copyLane h a).1 rest).2) := rfl
    rw [hstep]
    have hcopystable : readLane (deepcopyConfig (copyLane h a).1 rest).1 (copyLane h a).2 =
        readLane (copyLane h a).1 (copyLane h a).2 := by
      refine readLane_extends ie cb2 ?_
      intro mas1 hmas1 sa hsa
      exact (cmult mas1 hmas1 sa hsa).2
    refine ⟨heapExtends_trans ce ie, ?_, ?_⟩
    · intro a1 ha1
      rcases List.mem_cons.mp ha1 with rfl | ha1'
      · refine ⟨cb1, lt_of_lt_of_le cb2 ie.lanes_le, ?_⟩
        intro mas1 hmas1
        rw [laneAt_extends ie cb2] at hmas1
        intro sa hsa
        obtain ⟨hs1, hs2⟩ := cmult mas1 hmas1 sa hsa
        exact ⟨hs1, lt_of_lt_of_le hs2 ie.samples_le⟩
      · obtain ⟨hb1, hb2, hb3⟩ := ib a1 ha1'
        exact ⟨le_trans ce.lanes_le hb1, hb2, fun mas1 hmas1 sa hsa =>
          ⟨le_trans ce.samples_le (hb3 mas1 hmas1 sa hsa).1, (hb3 mas1 hmas1 sa hsa).2⟩⟩
    · refine List.Forall₂.cons (hcopystable.trans crd) ?_
      refine forall2_imp_mem irel ?_
      intro a1 b hb hr
      rw [hr]
      obtain ⟨hb1, hb2⟩ := hv b (List.mem_cons_of_mem a hb)
      exact readLane_extends ce hb1 hb2

theorem SameBelow.refl (nl ns : Nat) (h : Heap) : SameBelow nl ns h h :=
  ⟨fun _ _ => Eq.refl _, fun _ _ => Eq.refl _⟩

theorem sameBelow_trans {nl ns : Nat} {h1 h2 h3 : Heap}
    (a : SameBelow nl ns h1 h2) (b : SameBelow nl ns h2 h3) : SameBelow nl ns h1 h3 :=
  ⟨fun x hx => (b.1 x hx).trans (a.1 x hx), fun x hx => (b.2 x hx).trans (a.2 x hx)⟩

theorem sampleStep_lanes (h : Heap) (ci : CustomItem) (sa : Nat) :
    (sampleStep h ci sa).lanes = h.lanes := by
  unfold sampleStep
  cases dget (sampleAt h sa) "sequence" with
  | none => rfl
  | some sq =>
    show (match findCustomSample sq ci.multiplex with
      | none => h
      | some cs => setSample h sa (applyEntries (sampleAt h sa) cs)).lanes = h.lanes
    cases findCustomSample sq ci.multiplex with
    | none => rfl
    | some cs => rfl

theorem sampleStep_below {ns : Nat} (h : Heap) (ci : CustomItem) (sa : Nat)
    (hsa : ns ≤ sa) :
    ∀ b, b < ns → (sampleStep h ci sa).samples[b]? = h.samples[b]? := by
  intro b hb
  unfold sampleStep
  cases dget (sampleAt h sa) "sequence" with
  | none => rfl
  | some sq =>
    show (match findCustomSample sq ci.multiplex with
      | none => h
      | some cs => setSample h sa (applyEntries (sampleAt h sa) cs)).samples[b]? =
      h.samples[b]?
    cases findCustomSample sq ci.multiplex with
    | none => rfl
    | some cs =>
      unfold setSample
      exact List.getElem?_set_ne (by omega)

theorem processSamples_lanes (h : Heap) (ci : CustomItem) (mas : List Nat) :
    (processSamples h ci mas).lanes = h.lanes := by
  induction mas generalizing h with
  | nil => rfl
  | cons sa rest ih =>
    unfold processSamples
    rw [ih (sampleStep h ci sa), sampleStep_lanes]

theorem processSamples_below {ns : Nat} (h : Heap) (ci : CustomItem) (mas : List Nat)
    (hge : ∀ sa ∈ mas, ns ≤ sa) :
    ∀ b, b < ns → (processSamples h ci mas).samples[b]? = h.samples[b]? := by
  induction mas generalizing h with
  | nil => exact fun _ _ => Eq.refl _
  | cons sa rest ih =>
    intro b hb
    have hsa : ns ≤ sa := hge sa (List.mem_cons_self ..)
    have hrest : ∀ x ∈ rest, ns ≤ x := fun x hx => hge x (List.mem_cons_of_mem sa hx)
    unfold processSamples
    rw [ih (sampleStep h ci sa) hrest b hb, sampleStep_below h ci sa hsa b hb]

theorem setLane_multiplex (h : Heap) (a : Nat) (e : Dict) :
    ∀ b, (laneAt (setLane h a ⟨e, (laneAt h a).multiplex⟩) b).multiplex =
      (laneAt h b).multiplex := by
  intro b
  by_cases hab : a = b
  · subst hab
    by_cases ha : a < h.lanes.length
    · unfold laneAt setLane
      rw [List.getElem?_set_self ha]
      rfl
    · unfold laneAt setLane
      rw [List.set_eq_of_length_le (by omega)]
  · unfold laneAt setLane
    rw [List.getElem?_set_ne hab]

theorem laneWrite_multiplex (h : Heap) (a : Nat) (ci : CustomItem) :
    ∀ b, (laneAt (laneWrite h a ci) b).multiplex = (laneAt h b).multiplex :=
  setLane_multiplex h a (applyEntries (laneAt h a).entries ci.entries)

theorem laneWrite_below {nl ns : Nat} (h : Heap) (a : Nat) (ci : CustomItem)
    (ha : nl ≤ a) : SameBelow nl ns h (laneWrite h a ci) := by
  refine ⟨?_, fun b hb => Eq.refl _⟩
  intro b hb
  unfold laneWrite setLane
  exact List.getElem?_set_ne (by omega)

theorem processMultiplex_lanes_multiplex (h1 : Heap) (a : Nat) (ci : CustomItem) :
    ∀ b, (laneAt (processMultiplex h1 a ci) b).multiplex = (laneAt h1 b).multiplex := by
  intro b
  unfold processMultiplex
  cases hm : (laneAt h1 a).multiplex with
  | none => rfl
  | some mas =>
    unfold laneAt
    rw [processSamples_lanes]

theorem processMultiplex_below {nl ns : Nat} (h1 : Heap) (a : Nat) (ci : CustomItem)
    (hmult : ∀ mas, (laneAt h1 a).multiplex = some mas → ∀ sa ∈ mas, ns ≤ sa) :
    SameBelow nl ns h1 (processMultiplex h1 a ci) := by
  unfold processMultiplex
  cases hm : (laneAt h1 a).multiplex with
  | none => exact SameBelow.refl ..
  | some mas =>
    refine ⟨?_, ?_⟩
    · intro b hb
      show (processSamples h1 ci mas).lanes[b]? = h1.lanes[b]?
      rw [processSamples_lanes]
    · exact processSamples_below h1 ci mas (hmult mas hm)

theorem processItem_multiplex (h : Heap) (a : Nat) (custom : List CustomItem) :
    ∀ b, (laneAt (processItem h a custom).1 b).multiplex = (laneAt h b).multiplex := by
  intro b
  unfold processItem
  cases findMatch h a custom with
  | error e => rfl
  | ok oci =>
    cases oci with
    | none => rfl
    | some ci =>
      show (laneAt (processMultiplex (laneWrite h a ci) a ci) b).multiplex =
        (laneAt h b).multiplex
      rw [processMultiplex_lanes_multiplex, laneWrite_multiplex]

theorem processItem_below {nl ns : Nat} (h : Heap) (a : Nat) (custom : List CustomItem)
    (ha : nl ≤ a)
    (hmult : ∀ mas, (laneAt h a).multiplex = some mas → ∀ sa ∈ mas, ns ≤ sa) :
    SameBelow nl ns h (processItem h a custom).1 := by
  unfold processItem
  cases findMatch h a custom with
  | error e => exact SameBelow.refl ..
  | ok oci =>
    cases oci with
    | none => exact SameBelow.refl ..
    | some ci =>
      show SameBelow nl ns h (processMultiplex (laneWrite h a ci) a ci)
      refine sameBelow_trans (laneWrite_below h a ci ha) ?_
      refine processMultiplex_below (laneWrite h a ci) a ci ?_
      intro mas hmas
      rw [laneWrite_multiplex h a ci a] at hmas
      exact hmult mas hmas

theorem overrideLoop_below {nl ns : Nat} (newCfg : List Nat) (custom : List CustomItem)
    (h : Heap)
    (hinv : ∀ a ∈ newCfg, nl ≤ a ∧
      ∀ mas, (laneAt h a).multiplex = some mas → ∀ sa ∈ mas, ns ≤ sa) :
    SameBelow nl ns h (overrideLoop h newCfg custom).1 := by
  induction newCfg generalizing h with
  | nil => exact SameBelow.refl ..
  | cons a rest ih =>
    obtain ⟨ha, hmult⟩ := hinv a (List.mem_cons_self ..)
    have hstep : SameBelow nl ns h (processItem h a custom).1 :=
      processItem_below h a custom ha hmult
    have hinv1 : ∀ b ∈ rest, nl ≤ b ∧
        ∀ mas, (laneAt (processItem h a custom).1 b).multiplex = some mas →
          ∀ sa ∈ mas, ns ≤ sa := by
      intro b hb
      obtain ⟨hb1, hb2⟩ := hinv b (List.mem_cons_of_mem a hb)
      refine ⟨hb1, ?_⟩
      intro mas hmas
      rw [processItem_multiplex h a custom b] at hmas
      exact hb2 mas hmas
    unfold overrideLoop
    cases (processItem h a custom).2 with
    | some e => exact hstep
    | none => exact sameBelow_trans hstep (ih (processItem h a custom).1 hinv1)

/-- C2: the Configuration Override Engine never mutates the caller's base
configuration: whatever the custom configuration and whether the call
returns normally or raises the `KeyError`, every object reachable from
`org_config` reads back exactly as before the call (the engine mutates
only the fresh `copy.deepcopy` of the base). -/
theorem claim_c2_override_preserves_base (h : Heap) (org : List Nat)
    (custom : List CustomItem) (hv : ValidConfig h org) :
    readConfig (override_with_custom_config h org custom).1 org = readConfig h org := by
  obtain ⟨ce, cb, -⟩ := deepcopyConfig_spec org h hv
  have hinv : ∀ a ∈ (deepcopyConfig h org).2, h.lanes.length ≤ a ∧
      ∀ mas, (laneAt (deepcopyConfig h org).1 a).multiplex = some mas →
        ∀ sa ∈ mas, h.samples.length ≤ sa := by
    intro a ha
    obtain ⟨hb1, -, hb3⟩ := cb a ha
    exact ⟨hb1, fun mas hmas sa hsa => (hb3 mas hmas sa hsa).1⟩
  have hsb : SameBelow h.lanes.length h.samples.length (deepcopyConfig h org).1
      (overrideLoop (deepcopyConfig h org).1 (deepcopyConfig h org).2 custom).1 :=
    overrideLoop_below (deepcopyConfig h org).2 custom (deepcopyConfig h org).1 hinv
  have hres : (override_with_custom_config h org custom).1 =
      (overrideLoop (deepcopyConfig h org).1 (deepcopyConfig h org).2 custom).1 := by
    unfold override_with_custom_config
    cases (overrideLoop (deepcopyConfig h org).1 (deepcopyConfig h org).2 custom).2 with
    | some e => rfl
    | none => rfl
  rw [hres]
  unfold readConfig
  refine List.map_congr_left ?_
  intro a ha
  obtain ⟨ha1, ha2⟩ := hv a ha
  have hlanes : laneAt (overrideLoop (deepcopyConfig h org).1
      (deepcopyConfig h org).2 custom).1 a = laneAt h a := by
    unfold laneAt
    rw [hsb.1 a ha1]
    obtain ⟨⟨ls, hl⟩, -⟩ := ce
    rw [hl, List.getElem?_append_left ha1]
  refine readLane_congr hlanes ?_
  intro mas hmas sa hsa
  have hsa' : sa < h.samples.length := ha2 mas hmas sa hsa
  unfold sampleAt
  rw [hsb.2 sa hsa']
  obtain ⟨-, ⟨ss, hs⟩⟩ := ce
  rw [hs, List.getElem?_append_left hsa']

/-- Witness for C2 at a concrete one-lane heap with a multiplexed barcode
and a custom entry that matches the lane (so the copy is really mutated). -/
theorem claim_c2_override_preserves_base_witness :
    readConfig (override_with_custom_config
        ⟨[⟨[("lane", PVal.int 1)], some [0]⟩], [[("sequence", PVal.str "ACGT")]]⟩
        [0]
        [⟨[("lane", PVal.int 1), ("genome_build", PVal.str "hg19")],
          [[("sequence", PVal.str "ACGT"), ("analysis", PVal.str "custom")]]⟩]).1 [0] =
      readConfig
        ⟨[⟨[("lane", PVal.int 1)], some [0]⟩], [[("sequence", PVal.str "ACGT")]]⟩ [0] := by
  refine claim_c2_override_preserves_base _ _ _ ?_
  intro a ha
  have ha0 : a = 0 := by simpa using ha
  subst ha0
  refine ⟨by decide, ?_⟩
  intro mas hmas
  have hmas' : some [0] = some mas := hmas
  injection hmas' with hmas'
  subst hmas'
  intro sa hsa
  have hsa0 : sa = 0 := by simpa using hsa
  subst hsa0
  decide

theorem findMatch_none (h : Heap) (a : Nat) (custom : List CustomItem) (lv : PVal)
    (hd : dget (laneAt h a).entries "lane" = some lv)
    (hne : ∀ ci ∈ custom, lv ≠ dgetD ci.entries "lane" (PVal.str "")) :
    findMatch h a custom = Except.ok none := by
  induction custom with
  | nil => rfl
  | cons ci rest ih =>
    unfold findMatch
    rw [hd]
    show (if lv = dgetD ci.entries "lane" (PVal.str "") then Except.ok (some ci)
      else findMatch h a rest) = Except.ok none
    rw [if_neg (hne ci (List.mem_cons_self ..))]
    exact ih fun x hx => hne x (List.mem_cons_of_mem ci hx)

theorem overrideLoop_noop (newCfg : List Nat) (custom : List CustomItem) (h : Heap)
    (hnm : ∀ a ∈ newCfg, findMatch h a custom = Except.ok none) :
    overrideLoop h newCfg custom = (h, none) := by
  induction newCfg with
  | nil => rfl
  | cons a rest ih =>
    have hpi : processItem h a custom = (h, none) := by
      unfold processItem
      rw [hnm a (List.mem_cons_self ..)]
    unfold overrideLoop
    rw [hpi]
    exact ih fun x hx => hnm x (List.mem_cons_of_mem a hx)

/-- C5: when no custom entry's `lane` (defaulted to `''`) equals the
`lane` of any base entry, the override returns successfully and its result
reads back deep-equal to the base configuration (every lane and barcode
dict has exactly the base's value). -/
theorem claim_c5_override_disjoint_identity (h : Heap) (org : List Nat)
    (custom : List CustomItem) (hv : ValidConfig h org)
    (hl : ∀ a ∈ org, ∃ lv, dget (laneAt h a).entries "lane" = some lv ∧
      ∀ ci ∈ custom, lv ≠ dgetD ci.entries "lane" (PVal.str "")) :
    (override_with_custom_config h org custom).2 =
      Except.ok (deepcopyConfig h org).2 ∧
    readConfig (override_with_custom_config h org custom).1
      (deepcopyConfig h org).2 = readConfig h org := by
  obtain ⟨ce, cb, crel⟩ := deepcopyConfig_spec org h hv
  have hnm : ∀ a1 ∈ (deepcopyConfig h org).2,
      findMatch (deepcopyConfig h org).1 a1 custom = Except.ok none := by
    intro a1 ha1
    obtain ⟨a, ha, hr⟩ := forall2_mem_left crel ha1
    obtain ⟨lv, hd, hne⟩ := hl a ha
    have hent : (laneAt (deepcopyConfig h org).1 a1).entries = (laneAt h a).entries :=
      congrArg PLane.entries hr
    refine findMatch_none _ a1 custom lv ?_ hne
    rw [hent]
    exact hd
  have hloop : overrideLoop (deepcopyConfig h org).1 (deepcopyConfig h org).2 custom =
      ((deepcopyConfig h org).1, none) :=
    overrideLoop_noop (deepcopyConfig h org).2 custom (deepcopyConfig h org).1 hnm
  constructor
  · unfold override_with_custom_config
    rw [hloop]
  · have hres : (override_with_custom_config h org custom).1 =
        (deepcopyConfig h org).1 := by
      unfold override_with_custom_config
      rw [hloop]
    rw [hres]
    exact forall2_map_eq crel

/-- Witness for C5 at a concrete one-lane heap and a custom entry for a
different lane. -/
theorem claim_c5_override_disjoint_identity_witness :
    (override_with_custom_config
        ⟨[⟨[("lane", PVal.int 1)], some [0]⟩], [[("sequence", PVal.str "ACGT")]]⟩
        [0]
        [⟨[("lane", PVal.int 2), ("genome_build", PVal.str "hg19")],
          [[("sequence", PVal.str "ACGT"), ("analysis", PVal.str "custom")]]⟩]).2 =
      Except.ok (deepcopyConfig
        ⟨[⟨[("lane", PVal.int 1)], some [0]⟩], [[("sequence", PVal.str "ACGT")]]⟩ [0]).2 ∧
    readConfig (override_with_custom_config
        ⟨[⟨[("lane", PVal.int 1)], some [0]⟩], [[("sequence", PVal.str "ACGT")]]⟩
        [0]
        [⟨[("lane", PVal.int 2), ("genome_build", PVal.str "hg19")],
          [[("sequence", PVal.str "ACGT"), ("analysis", PVal.str "custom")]]⟩]).1
      (deepcopyConfig
        ⟨[⟨[("lane", PVal.int 1)], some [0]⟩], [[("sequence", PVal.str "ACGT")]]⟩ [0]).2 =
      readConfig
        ⟨[⟨[("lane", PVal.int 1)], some [0]⟩], [[("sequence", PVal.str "ACGT")]]⟩ [0] := by
  refine claim_c5_override_disjoint_identity _ _ _ ?_ ?_
  · intro a ha
    have ha0 : a = 0 := by simpa using ha
    subst ha0
    refine ⟨by decide, ?_⟩
    intro mas hmas
    have hmas' : some [0] = some mas := hmas
    injection hmas' with hmas'
    subst hmas'
    intro sa hsa
    have hsa0 : sa = 0 := by simpa using hsa
    subst hsa0
    decide
  · intro a ha
    have ha0 : a = 0 := by simpa using ha
    subst ha0
    refine ⟨PVal.int 1, by decide, ?_⟩
    intro ci hci
    have hci' : ci = ⟨[("lane", PVal.int 2), ("genome_build", PVal.str "hg19")],
        [[("sequence", PVal.str "ACGT"), ("analysis", PVal.str "custom")]]⟩ := by
      simpa using hci
    subst hci'
    decide

theorem keepRoundAux_sublist (ans : Nat → Bool) (i : Nat) (l : List RunRecord) :
    (keepRoundAux ans i l).Sublist l := by
  induction l generalizing i with
  | nil => exact List.Sublist.refl []
  | cons r rest ih =>
    unfold keepRoundAux
    by_cases h : ans i
    · rw [if_pos h]
      exact (ih (i + 1)).cons₂ r
    · rw [if_neg h]
      exact (ih (i + 1)).cons r

theorem resolveGroup_sublist {dec : Nat → Nat → Bool} {fuel round : Nat}
    {samples final : List RunRecord}
    (h : resolveGroup dec fuel round samples = some final) : final.Sublist samples := by
  induction fuel generalizing round samples with
  | zero =>
    unfold resolveGroup at h
    by_cases hl : samples.length ≤ 1
    · rw [if_pos hl, Option.some.injEq] at h
      exact h ▸ List.Sublist.refl samples
    · rw [if_neg hl] at h
      exact absurd h (by simp)
  | succ fuel2 ih =>
    unfold resolveGroup at h
    by_cases hl : samples.length ≤ 1
    · rw [if_pos hl, Option.some.injEq] at h
      exact h ▸ List.Sublist.refl samples
    · rw [if_neg hl] at h
      exact (ih h).trans (keepRoundAux_sublist (dec round) 0 samples)

theorem resolveGroup_length {dec : Nat → Nat → Bool} {fuel round : Nat}
    {samples final : List RunRecord}
    (h : resolveGroup dec fuel round samples = some final) : final.length ≤ 1 := by
  induction fuel generalizing round samples with
  | zero =>
    unfold resolveGroup at h
    by_cases hl : samples.length ≤ 1
    · rw [if_pos hl, Option.some.injEq] at h
      exact h ▸ hl
    · rw [if_neg hl] at h
      exact absurd h (by simp)
  | succ fuel2 ih =>
    unfold resolveGroup at h
    by_cases hl : samples.length ≤ 1
    · rw [if_pos hl, Option.some.injEq] at h
      exact h ▸ hl
    · rw [if_neg hl] at h
      exact ih h

theorem resolveGroup_small {dec : Nat → Nat → Bool} {fuel round : Nat}
    {samples : List RunRecord} (hl : samples.length ≤ 1) :
    resolveGroup dec fuel round samples = some samples := by
  cases fuel with
  | zero => unfold resolveGroup; rw [if_pos hl]
  | succ fuel2 => unfold resolveGroup; rw [if_pos hl]

theorem resolveAll_rel {dec : String → Nat → Nat → Bool} {fuel : Nat}
    {groups gs : List (String × List RunRecord)}
    (h : resolveAll dec fuel groups = some gs) :
    List.Forall₂ (fun kg kg2 => kg2.1 = kg.1 ∧
      resolveGroup (dec kg.1) fuel 0 kg.2 = some kg2.2) groups gs := by
  induction groups generalizing gs with
  | nil =>
    unfold resolveAll at h
    rw [Option.some.injEq] at h
    exact h ▸ List.Forall₂.nil
  | cons kg rest ih =>
    obtain ⟨k, rs⟩ := kg
    unfold resolveAll at h
    cases hr : resolveGroup (dec k) fuel 0 rs with
    | none => rw [hr] at h; exact absurd h (by simp)
    | some final =>
      rw [hr] at h
      revert h
      show (match resolveAll dec fuel rest with
        | none => none
        | some rest2 => some ((k, final) :: rest2)) = some gs → _
      cases ha : resolveAll dec fuel rest with
      | none => intro h; exact absurd h (by simp)
      | some rest2 =>
        intro h
        rw [Option.some.injEq] at h
        subst h
        exact List.Forall₂.cons ⟨rfl, hr⟩ (ih ha)

theorem firstEach_rel {gs : List (String × List RunRecord)}
    {result : List RunRecord}
    (h : firstEach gs = Except.ok result) :
    List.Forall₂ (fun r (kg2 : String × List RunRecord) => ∃ t, kg2.2 = r :: t)
      result gs := by
  induction gs generalizing result with
  | nil =>
    unfold firstEach at h
    rw [Except.ok.injEq] at h
    exact h ▸ List.Forall₂.nil
  | cons kg rest ih =>
    obtain ⟨k, rs⟩ := kg
    unfold firstEach at h
    cases rs with
    | nil => exact absurd h (by simp)
    | cons r t =>
      revert h
      show (match firstEach rest with
        | Except.error e => Except.error e
        | Except.ok l => Except.ok (r :: l)) = Except.ok result → _
      cases hf : firstEach rest with
      | error e => intro h; exact absurd h (by simp)
      | ok l =>
        intro h
        rw [Except.ok.injEq] at h
        subst h
        exact List.Forall₂.cons ⟨t, rfl⟩ (ih hf)

theorem forall2_comp {α β γ : Type} {R : α → β → Prop} {S : γ → β → Prop}
    {T : α → γ → Prop} {l1 : List α} {l2 : List β} {l3 : List γ}
    (h1 : List.Forall₂ R l1 l2) (h2 : List.Forall₂ S l3 l2)
    (ht : ∀ a b c, R a b → S c b → T a c) : List.Forall₂ T l1 l3 := by
  induction h1 generalizing l3 with
  | nil =>
    cases h2 with
    | nil => exact List.Forall₂.nil
  | cons hab htail ih =>
    rename_i a b t1 t2
    cases h2 with
    | cons hcb htail2 =>
      rename_i c t3
      exact List.Forall₂.cons (ht a b c hab hcb) (ih htail2)

/-- C8 counterexample: dropping every record of a duplicate group makes the
reconciliation block fail with `IndexError` at `[s[0] for s in
sample_dict.values()]`, so nothing is contributed to the result — not even
the untouched singleton group's record. -/
theorem claim_c8_counterexample :
    reconcileRuns (fun _ _ _ => false) 5
      [⟨"120101", "FCA", "1", "ACGT", [("_id", PVal.str "a")]⟩,
       ⟨"120101", "FCA", "2", "ACGT", [("_id", PVal.str "b")]⟩,
       ⟨"120101", "FCA", "2", "ACGT", [("_id", PVal.str "c")]⟩] =
      Except.error ReconcileErr.indexError := by
  rfl

/-- C8 amended: whenever the reconciliation completes without error (the
decision rounds converge and leave at least — hence exactly — one record
per group), each group contributes exactly one record: a member of the
group (so a duplicate group of size N contributes at most N records),
equal to the final surviving set of its decision rounds (so the result
contains every record the decisions kept in the final round), and a group
of size 1 contributes exactly its singleton unchanged.  If the decisions
drop all records of some duplicate group, the code instead fails with
`IndexError` (see the counterexample). -/
theorem claim_c8_reconciler_contributions (dec : String → Nat → Nat → Bool)
    (fuel : Nat) (runs result : List RunRecord)
    (hok : reconcileRuns dec fuel runs = Except.ok result) :
    result.length = (groupByKey runs).length ∧
    List.Forall₂ (fun r (kg : String × List RunRecord) =>
      r ∈ kg.2 ∧ (kg.2.length = 1 → kg.2 = [r]) ∧
      resolveGroup (dec kg.1) fuel 0 kg.2 = some [r]) result (groupByKey runs) := by
  unfold reconcileRuns at hok
  cases ha : resolveAll dec fuel (groupByKey runs) with
  | none => rw [ha] at hok; exact absurd hok (by simp)
  | some gs =>
    rw [ha] at hok
    have h1 := firstEach_rel hok
    have h2 := resolveAll_rel ha
    have hT : List.Forall₂ (fun r (kg : String × List RunRecord) =>
        r ∈ kg.2 ∧ (kg.2.length = 1 → kg.2 = [r]) ∧
        resolveGroup (dec kg.1) fuel 0 kg.2 = some [r]) result (groupByKey runs) := by
      refine forall2_comp h1 h2 ?_
      rintro r kg2 kg ⟨t, hhead⟩ ⟨-, hres⟩
      have hlen : kg2.2.length ≤ 1 := resolveGroup_length hres
      have ht0 : t = [] := by
        rw [hhead] at hlen
        simp only [List.length_cons] at hlen
        exact List.length_eq_zero.mp (by omega)
      subst ht0
      rw [hhead] at hres
      have hmem : r ∈ kg.2 := (resolveGroup_sublist hres).subset (List.mem_cons_self ..)
      refine ⟨hmem, ?_, hres⟩
      intro h1len
      have hsmall : resolveGroup (dec kg.1) fuel 0 kg.2 = some kg.2 :=
        resolveGroup_small (by omega)
      rw [hsmall, Option.some.injEq] at hres
      exact hres
    exact ⟨hT.length_eq, hT⟩

/-- Witness for C8's amended theorem at a concrete run list with one
singleton group and one duplicate group, with decisions keeping exactly the
first duplicate. -/
theorem claim_c8_reconciler_contributions_witness :
    ([⟨"120101", "FCA", "1", "ACGT", [("_id", PVal.str "a")]⟩,
      ⟨"120101", "FCA", "2", "ACGT", [("_id", PVal.str "b")]⟩] :
        List RunRecord).length =
      (groupByKey
        [⟨"120101", "FCA", "1", "ACGT", [("_id", PVal.str "a")]⟩,
         ⟨"120101", "FCA", "2", "ACGT", [("_id", PVal.str "b")]⟩,
         ⟨"120101", "FCA", "2", "ACGT", [("_id", PVal.str "c")]⟩]).length ∧
    List.Forall₂ (fun r (kg : String × List RunRecord) =>
      r ∈ kg.2 ∧ (kg.2.length = 1 → kg.2 = [r]) ∧
      resolveGroup ((fun (_ : String) (_ pos : Nat) => pos == 0) kg.1) 5 0 kg.2 =
        some [r])
      [⟨"120101", "FCA", "1", "ACGT", [("_id", PVal.str "a")]⟩,
       ⟨"120101", "FCA", "2", "ACGT", [("_id", PVal.str "b")]⟩]
      (groupByKey
        [⟨"120101", "FCA", "1", "ACGT", [("_id", PVal.str "a")]⟩,
         ⟨"120101", "FCA", "2", "ACGT", [("_id", PVal.str "b")]⟩,
         ⟨"120101", "FCA", "2", "ACGT", [("_id", PVal.str "c")]⟩]) :=
  claim_c8_reconciler_contributions (fun (_ : String) (_ pos : Nat) => pos == 0) 5
    [⟨"120101", "FCA", "1", "ACGT", [("_id", PVal.str "a")]⟩,
     ⟨"120101", "FCA", "2", "ACGT", [("_id", PVal.str "b")]⟩,
     ⟨"120101", "FCA", "2", "ACGT", [("_id", PVal.str "c")]⟩]
    [⟨"120101", "FCA", "1", "ACGT", [("_id", PVal.str "a")]⟩,
     ⟨"120101", "FCA", "2", "ACGT", [("_id", PVal.str "b")]⟩]
    (by rfl)
